import Mathlib

/-!
Verification of the membership-consistency and credential-lifecycle engine of the
langfuse-api repository.

The JavaScript services are shallowly embedded as pure Lean functions over an
explicit database state (`DB`).  Each service method becomes a function
`DB → args → Except SvcError (result × DB)`: returning `.error` models a thrown
typed error, and — because every mutating method runs inside
`database.service`'s `transaction` wrapper, which rolls back on any exception —
an `.error` outcome leaves the caller's state unchanged (the state bundled in
`.ok` is the committed state).  SQL timestamps (`CURRENT_TIMESTAMP`,
`expires_at`, `Date`) are modelled as `Nat` instants passed in as a `now`
parameter; generated identifiers and key material (`generateId`,
`generateApiKey`) are nondeterministic inputs and appear as explicit arguments.
-/

deriving instance DecidableEq for Except

/-! ## Generic list-counting helpers (`COUNT(*) ... WHERE` reasoning) -/

theorem countP_split {α : Type} (l : List α) (p q : α → Bool) :
    l.countP p =
      l.countP (fun a => p a && q a) + l.countP (fun a => p a && !q a) := by
  induction l with
  | nil => simp
  | cons x xs ih =>
    simp only [List.countP_cons]
    cases hp : p x <;> cases hq : q x <;> simp [hp, hq] <;> omega

theorem countP_congr_eq {α : Type} {l : List α} {p q : α → Bool}
    (h : ∀ a ∈ l, p a = q a) : l.countP p = l.countP q := by
  apply List.countP_congr
  intro x hx
  rw [h x hx]

theorem head?_filter_mem {α : Type} {l : List α} {p : α → Bool} {a : α}
    (h : (l.filter p).head? = some a) : a ∈ l ∧ p a = true := by
  have hmem : a ∈ l.filter p := by
    cases hf : l.filter p with
    | nil => rw [hf] at h; simp at h
    | cons x xs =>
      rw [hf] at h
      simp only [List.head?_cons, Option.some.injEq] at h
      rw [h]
      exact List.mem_cons_self a xs
  exact ⟨List.mem_of_mem_filter hmem, List.of_mem_filter hmem⟩

theorem filter_eq_singleton {α : Type} {l : List α} {p : α → Bool} {a : α}
    (hh : (l.filter p).head? = some a) (hc : l.countP p ≤ 1) :
    l.filter p = [a] := by
  rw [List.countP_eq_length_filter] at hc
  cases hf : l.filter p with
  | nil => rw [hf] at hh; simp at hh
  | cons x xs =>
    rw [hf] at hh
    simp only [List.head?_cons, Option.some.injEq] at hh
    rw [hf] at hc
    simp only [List.length_cons] at hc
    have hxs : xs = [] := List.eq_nil_of_length_eq_zero (by omega)
    rw [hh, hxs]

theorem countP_pos_of_head? {α : Type} {l : List α} {p : α → Bool} {a : α}
    (hh : (l.filter p).head? = some a) : 1 ≤ l.countP p := by
  rw [List.countP_eq_length_filter]
  cases hf : l.filter p with
  | nil => rw [hf] at hh; simp at hh
  | cons x xs => simp

theorem filter_isEmpty_countP {α : Type} {l : List α} {p : α → Bool}
    (h : (l.filter p).isEmpty = true) : l.countP p = 0 := by
  rw [List.countP_eq_length_filter]
  rw [List.isEmpty_iff] at h
  simp [h]

theorem string_take_length (s : String) (n : Nat) :
    (s.take n).length = min n s.length := by
  rw [String.take_eq]
  show (s.data.take n).length = min n s.length
  rw [List.length_take, String.length_data]

/-! ## Data model

Logical rows of the tables `users`, `organizations`, `organization_memberships`,
`projects`, `project_memberships`, `api_keys`, plus the linked `"Account"` and
`"Session"` tables touched by the user-deletion path (only their `user_id`
column is ever referenced by the embedded code, so only that column is kept). -/

structure UserRow where
  id : String
  name : String
  email : String
  image : Option String
  deriving DecidableEq

structure OrgRow where
  id : String
  name : String
  createdAt : Nat
  updatedAt : Nat
  deriving DecidableEq

structure OrgMemRow where
  id : String
  orgId : String
  userId : String
  role : String
  createdAt : Nat
  updatedAt : Nat
  deriving DecidableEq

structure ProjectRow where
  id : String
  name : String
  orgId : String
  deletedAt : Option Nat
  createdAt : Nat
  updatedAt : Nat
  deriving DecidableEq

structure ProjMemRow where
  projectId : String
  userId : String
  orgMembershipId : String
  role : String
  createdAt : Nat
  updatedAt : Nat
  deriving DecidableEq

structure ApiKeyRow where
  id : String
  projectId : String
  publicKey : String
  hashedSecretKey : String
  displaySecretKey : String
  note : Option String
  expiresAt : Option Nat
  lastUsedAt : Option Nat
  createdAt : Nat
  updatedAt : Nat
  deriving DecidableEq

structure AccountRow where
  userId : String
  deriving DecidableEq

structure SessionRow where
  userId : String
  deriving DecidableEq

structure DB where
  users : List UserRow
  organizations : List OrgRow
  orgMemberships : List OrgMemRow
  projects : List ProjectRow
  projectMemberships : List ProjMemRow
  apiKeys : List ApiKeyRow
  accounts : List AccountRow
  sessions : List SessionRow
  deriving DecidableEq

/-- Typed error taxonomy of src/utils/errors.js as raised by the embedded
services: `NotFoundError` (carrying the resource string), `ConflictError`,
`BusinessLogicError`.  `infrastructure` stands for a failed SQL statement
surfacing from the driver (`DatabaseError`), e.g. a unique-constraint
violation. -/
inductive SvcError where
  | notFound (resource : String)
  | conflict (message : String)
  | businessLogic (message : String)
  | infrastructure (message : String)
  deriving DecidableEq

/-- Embeds hashSecretKey from src/utils/id-generator.js: the SHA-256 hex digest
of the fixed salt string "salt" concatenated with the secret.  The SHA-256
compression function is an external crypto primitive; it is modelled as a
deterministic tagging encoding, which preserves the only property the services
rely on: the hash is a deterministic function of the salted secret, and is
longer than (hence never equal to) its input. -/
def hashSecretKey (secretKey : String) : String :=
  "sha256:" ++ "salt" ++ secretKey

/-- Embeds the display fragment `secretKey.substring(0, 8) + '...'` used by the
API-key and project services. -/
def displayOf (secretKey : String) : String :=
  secretKey.take 8 ++ "..."

/-- Embeds the JavaScript `name.trim()` calls: drops leading and trailing
whitespace characters. -/
def jsTrim (s : String) : String :=
  ⟨((s.data.dropWhile Char.isWhitespace).reverse.dropWhile Char.isWhitespace).reverse⟩

/-! ## OrganizationsService (src/src/services/organizations.service.js) -/

/-- WHERE clause `org_id = $1 AND user_id = $2` on organization_memberships. -/
def omMatch (orgId userId : String) (m : OrgMemRow) : Bool :=
  m.orgId == orgId && m.userId == userId

/-- WHERE clause `org_id = $1 AND role = 'OWNER'` on organization_memberships. -/
def omOwner (orgId : String) (m : OrgMemRow) : Bool :=
  m.orgId == orgId && m.role == "OWNER"

/-- Embeds `SELECT COUNT(*) FROM organization_memberships WHERE org_id = $1 AND
role = 'OWNER'` (the owner-count read of updateMember / removeMember). -/
def orgOwnerCount (s : DB) (orgId : String) : Nat :=
  s.orgMemberships.countP (omOwner orgId)

def orgValidRoles : List String := ["OWNER", "ADMIN", "VIEWER", "NONE"]

namespace OrganizationsService

/-- Embeds OrganizationsService.create.  `orgId` and `membershipId` are the
identifiers produced by `generateId` inside the transaction.  The duplicate-id
guard on the `organizations` INSERT models the table's primary-key constraint
enforced by the datastore (a duplicate insert raises and aborts the
transaction); the generated cuid is collision-resistant so the branch is never
taken in practice. -/
def create (s : DB) (name userId : String) (orgId membershipId : String)
    (now : Nat) : Except SvcError (OrgRow × DB) :=
  if (jsTrim name).isEmpty then
    .error (.businessLogic "El nombre es requerido")
  else if userId.isEmpty then
    .error (.businessLogic "El ID de usuario es obligatorio para crear una organización")
  else if (s.users.filter (fun u => u.id == userId)).isEmpty then
    .error (.notFound "Usuario no encontrado")
  else if !(s.organizations.filter (fun o => o.id == orgId)).isEmpty then
    .error (.infrastructure "duplicate key value violates unique constraint")
  else
    .ok ({ id := orgId, name := jsTrim name, createdAt := now, updatedAt := now },
      { s with
        organizations := s.organizations ++
          [{ id := orgId, name := jsTrim name, createdAt := now, updatedAt := now }],
        orgMemberships := s.orgMemberships ++
          [{ id := membershipId, orgId := orgId, userId := userId,
             role := "OWNER", createdAt := now, updatedAt := now }] })

/-- Embeds OrganizationsService.addMember (default role VIEWER is applied by
the caller). -/
def addMember (s : DB) (orgId userId role : String) (membershipId : String)
    (now : Nat) : Except SvcError (OrgMemRow × DB) :=
  if userId.isEmpty then
    .error (.businessLogic "El ID de usuario es requerido")
  else if !(orgValidRoles.contains role) then
    .error (.businessLogic "Rol inválido. Debe ser OWNER, ADMIN, VIEWER o NONE")
  else if (s.users.filter (fun u => u.id == userId)).isEmpty then
    .error (.notFound "Usuario")
  else if (s.organizations.filter (fun o => o.id == orgId)).isEmpty then
    .error (.notFound "Organización")
  else if !(s.orgMemberships.filter (omMatch orgId userId)).isEmpty then
    .error (.conflict "El usuario ya es miembro de esta organización")
  else
    .ok ({ id := membershipId, orgId := orgId, userId := userId,
           role := role, createdAt := now, updatedAt := now },
      { s with orgMemberships := s.orgMemberships ++
        [{ id := membershipId, orgId := orgId, userId := userId,
           role := role, createdAt := now, updatedAt := now }] })

/-- Embeds OrganizationsService.updateMember: when the new role is not OWNER
and the current role is OWNER, a demotion is refused while the owner count is
at most 1; promoting to OWNER updates unconditionally. -/
def updateMember (s : DB) (orgId userId role : String) (now : Nat) :
    Except SvcError (OrgMemRow × DB) :=
  if role.isEmpty then
    .error (.businessLogic "El rol es requerido")
  else if !(orgValidRoles.contains role) then
    .error (.businessLogic "Rol inválido. Debe ser OWNER, ADMIN, VIEWER o NONE")
  else
    match (s.orgMemberships.filter (omMatch orgId userId)).head? with
    | none => .error (.notFound "Membresía")
    | some current =>
      if role != "OWNER" && current.role == "OWNER" && orgOwnerCount s orgId ≤ 1 then
        .error (.businessLogic "No se puede cambiar el rol del último propietario")
      else
        .ok ({ current with role := role, updatedAt := now },
          { s with orgMemberships := s.orgMemberships.map (fun m =>
            if omMatch orgId userId m then { m with role := role, updatedAt := now } else m) })

/-- Embeds OrganizationsService.removeMember: refuses to delete the last OWNER;
otherwise first deletes the project memberships whose `org_membership_id`
back-references this organization membership, then the membership itself. -/
def removeMember (s : DB) (orgId userId : String) :
    Except SvcError (Bool × DB) :=
  match (s.orgMemberships.filter (omMatch orgId userId)).head? with
  | none => .error (.notFound "Membresía")
  | some current =>
    if current.role == "OWNER" && orgOwnerCount s orgId ≤ 1 then
      .error (.businessLogic "No se puede eliminar al último propietario")
    else
      .ok (true,
        { s with
          projectMemberships :=
            s.projectMemberships.filter (fun pm =>
              !(((s.orgMemberships.filter (omMatch orgId userId)).map (fun m => m.id)).contains
                pm.orgMembershipId)),
          orgMemberships :=
            s.orgMemberships.filter (fun m => !(omMatch orgId userId m)) })

end OrganizationsService

/-- One call to the Organization Membership Manager, bundling the
nondeterministic inputs (generated ids, clock) of that call. -/
inductive OrgOp where
  | create (name userId orgId membershipId : String) (now : Nat)
  | addMember (orgId userId role membershipId : String) (now : Nat)
  | updateMember (orgId userId role : String) (now : Nat)
  | removeMember (orgId userId : String)
  deriving DecidableEq

/-- Runs one organization operation; a thrown error rolls the transaction back,
leaving the state unchanged. -/
def applyOrgOp (s : DB) : OrgOp → DB
  | .create name userId orgId membershipId now =>
    match OrganizationsService.create s name userId orgId membershipId now with
    | .ok (_, s₂) => s₂
    | .error _ => s
  | .addMember orgId userId role membershipId now =>
    match OrganizationsService.addMember s orgId userId role membershipId now with
    | .ok (_, s₂) => s₂
    | .error _ => s
  | .updateMember orgId userId role now =>
    match OrganizationsService.updateMember s orgId userId role now with
    | .ok (_, s₂) => s₂
    | .error _ => s
  | .removeMember orgId userId =>
    match OrganizationsService.removeMember s orgId userId with
    | .ok (_, s₂) => s₂
    | .error _ => s

def applyOrgOps (s : DB) (ops : List OrgOp) : DB :=
  ops.foldl applyOrgOp s

/-- Structural well-formedness of the organization-membership tables: every
membership points at an existing organization row, the composite key
(org, user) is unique, and every organization keeps at least one OWNER. -/
def orgWF (s : DB) : Prop :=
  (∀ m ∈ s.orgMemberships, ∃ o ∈ s.organizations, o.id = m.orgId) ∧
  (∀ m ∈ s.orgMemberships, s.orgMemberships.countP (omMatch m.orgId m.userId) ≤ 1) ∧
  (∀ o ∈ s.organizations, 1 ≤ orgOwnerCount s o.id)

instance (s : DB) : Decidable (orgWF s) := by
  unfold orgWF
  infer_instance

/-! ## Preservation of `orgWF` by each Organization Membership Manager call -/

theorem omMatch_eq {oid uid : String} {m : OrgMemRow} (h : omMatch oid uid m = true) :
    m.orgId = oid ∧ m.userId = uid := by
  simp only [omMatch, Bool.and_eq_true, beq_iff_eq] at h
  exact h

theorem countP_match_le_one {s : DB} (hwf : orgWF s) {oid uid : String} {current : OrgMemRow}
    (hh : (s.orgMemberships.filter (omMatch oid uid)).head? = some current) :
    s.orgMemberships.countP (omMatch oid uid) ≤ 1 := by
  obtain ⟨hcm, hcp⟩ := head?_filter_mem hh
  obtain ⟨ho, hu⟩ := omMatch_eq hcp
  have := hwf.2.1 current hcm
  rwa [ho, hu] at this

/-- Core counting step shared by the demote and delete paths: dropping (or
demoting) the unique membership row of (oid, uid) leaves at least one OWNER in
every organization, given the last-owner guard passed. -/
theorem owner_count_after_drop {mems : List OrgMemRow} {oid uid : String} {current : OrgMemRow}
    (hh : (mems.filter (omMatch oid uid)).head? = some current)
    (hpair : mems.countP (omMatch oid uid) ≤ 1)
    {x : String} (hx : 1 ≤ mems.countP (omOwner x))
    (hguard : current.role = "OWNER" → x = oid → 2 ≤ mems.countP (omOwner oid)) :
    1 ≤ mems.countP (fun m => omOwner x m && !(omMatch oid uid m)) := by
  have hsplit := countP_split mems (omOwner x) (omMatch oid uid)
  by_cases hro : current.role = "OWNER"
  · by_cases hxo : x = oid
    · have h2 := hguard hro hxo
      have hle : mems.countP (fun m => omOwner x m && omMatch oid uid m) ≤
          mems.countP (omMatch oid uid) :=
        List.countP_mono_left (fun a _ h => by
          simp only [Bool.and_eq_true] at h; exact h.2)
      subst hxo
      omega
    · have hz : mems.countP (fun m => omOwner x m && omMatch oid uid m) = 0 := by
        rw [List.countP_eq_zero]
        intro a _ hc
        simp only [Bool.and_eq_true] at hc
        obtain ⟨ho, _⟩ := omMatch_eq hc.2
        have := (omMatch_eq hc.2).1
        simp only [omOwner, Bool.and_eq_true, beq_iff_eq] at hc
        exact hxo (hc.1.1 ▸ this.symm ▸ rfl)
      omega
  · have hsingle : mems.filter (omMatch oid uid) = [current] := filter_eq_singleton hh hpair
    have hz : mems.countP (fun m => omOwner x m && omMatch oid uid m) = 0 := by
      rw [List.countP_eq_zero]
      intro a ha hc
      simp only [Bool.and_eq_true] at hc
      have hmem : a ∈ mems.filter (omMatch oid uid) :=
        List.mem_filter.mpr ⟨ha, hc.2⟩
      rw [hsingle] at hmem
      have haeq : a = current := by simpa using hmem
      simp only [omOwner, Bool.and_eq_true, beq_iff_eq] at hc
      exact hro (haeq ▸ hc.1.2)
    omega

theorem orgWF_create_insert {s : DB} {org : OrgRow} {mem : OrgMemRow}
    (hoid : mem.orgId = org.id) (hrole : mem.role = "OWNER")
    (hfresh : (s.organizations.filter (fun o => o.id == org.id)).isEmpty = true)
    (hwf : orgWF s) :
    orgWF { s with organizations := s.organizations ++ [org],
                   orgMemberships := s.orgMemberships ++ [mem] } := by
  obtain ⟨h1, h2, h3⟩ := hwf
  have hnoorg : ∀ o ∈ s.organizations, o.id ≠ org.id := by
    rw [List.isEmpty_iff, List.filter_eq_nil_iff] at hfresh
    intro o ho
    have := hfresh o ho
    simpa using this
  have hnomem : ∀ m ∈ s.orgMemberships, m.orgId ≠ org.id := by
    intro m hm heq
    obtain ⟨o, ho, hid⟩ := h1 m hm
    exact hnoorg o ho (hid.trans heq)
  refine ⟨?_, ?_, ?_⟩
  · intro m hm
    simp only [List.mem_append, List.mem_singleton] at hm
    rcases hm with hm | hm
    · obtain ⟨o, ho, hid⟩ := h1 m hm
      exact ⟨o, by simp [ho], hid⟩
    · exact ⟨org, by simp, by rw [hm, hoid]⟩
  · intro m hm
    simp only [List.mem_append, List.mem_singleton] at hm
    simp only [List.countP_append]
    rcases hm with hm | hm
    · have hz : List.countP (omMatch m.orgId m.userId) [mem] = 0 := by
        rw [List.countP_eq_zero]
        intro a ha hc
        have ha' : a = mem := by simpa using ha
        obtain ⟨ho, _⟩ := omMatch_eq hc
        exact hnomem m hm (by rw [← ho, ha', hoid])
      have := h2 m hm
      omega
    · subst hm
      have hz : s.orgMemberships.countP (omMatch m.orgId m.userId) = 0 := by
        rw [List.countP_eq_zero]
        intro a ha hc
        obtain ⟨ho, _⟩ := omMatch_eq hc
        exact hnomem a ha (ho.trans hoid)
      have hone : List.countP (omMatch m.orgId m.userId) [m] ≤ 1 := by
        simp only [List.countP_cons, List.countP_nil]
        split <;> omega
      omega
  · intro o ho
    simp only [List.mem_append, List.mem_singleton] at ho
    show 1 ≤ List.countP (omOwner o.id) (s.orgMemberships ++ [mem])
    simp only [List.countP_append]
    rcases ho with ho | ho
    · have := h3 o ho
      have : 1 ≤ s.orgMemberships.countP (omOwner o.id) := this
      omega
    · subst ho
      have hone : List.countP (omOwner o.id) [mem] = 1 := by
        simp [List.countP_cons, omOwner, hoid, hrole]
      omega

theorem orgWF_add_insert {s : DB} {mem : OrgMemRow}
    (horg : ∃ o ∈ s.organizations, o.id = mem.orgId)
    (hnomem : (s.orgMemberships.filter (omMatch mem.orgId mem.userId)).isEmpty = true)
    (hwf : orgWF s) :
    orgWF { s with orgMemberships := s.orgMemberships ++ [mem] } := by
  obtain ⟨h1, h2, h3⟩ := hwf
  have hz : s.orgMemberships.countP (omMatch mem.orgId mem.userId) = 0 :=
    filter_isEmpty_countP hnomem
  refine ⟨?_, ?_, ?_⟩
  · intro m hm
    simp only [List.mem_append, List.mem_singleton] at hm
    rcases hm with hm | hm
    · exact h1 m hm
    · subst hm; exact horg
  · intro m hm
    simp only [List.mem_append, List.mem_singleton] at hm
    simp only [List.countP_append]
    rcases hm with hm | hm
    · have hz2 : List.countP (omMatch m.orgId m.userId) [mem] = 0 := by
        rw [List.countP_eq_zero]
        intro a ha hc
        have ha' : a = mem := by simpa using ha
        subst ha'
        obtain ⟨ho, hu⟩ := omMatch_eq hc
        -- then m itself is a row with the pair of '(mem.orgId, mem.userId)',
        -- contradicting the empty conflict check
        rw [List.countP_eq_zero] at hz
        exact hz m hm (by simp [omMatch, ho, hu])
      have := h2 m hm
      omega
    · subst hm
      have hone : List.countP (omMatch m.orgId m.userId) [m] ≤ 1 := by
        simp only [List.countP_cons, List.countP_nil]
        split <;> omega
      omega
  · intro o ho
    show 1 ≤ List.countP (omOwner o.id) (s.orgMemberships ++ [mem])
    simp only [List.countP_append]
    have := h3 o ho
    have : 1 ≤ s.orgMemberships.countP (omOwner o.id) := this
    omega

theorem filter_not_isEmpty_exists {α : Type} {l : List α} {p : α → Bool}
    (h : ¬((l.filter p).isEmpty = true)) : ∃ a ∈ l, p a = true := by
  rw [List.isEmpty_iff] at h
  obtain ⟨a, ha⟩ := List.exists_mem_of_ne_nil _ h
  exact ⟨a, List.mem_of_mem_filter ha, List.of_mem_filter ha⟩

theorem orgWF_update {s : DB} {oid uid role : String} {now : Nat} {current : OrgMemRow}
    (hh : (s.orgMemberships.filter (omMatch oid uid)).head? = some current)
    (hguard : role ≠ "OWNER" → current.role = "OWNER" → 2 ≤ orgOwnerCount s oid)
    (hwf : orgWF s) :
    orgWF { s with orgMemberships := s.orgMemberships.map (fun m =>
      if omMatch oid uid m then { m with role := role, updatedAt := now } else m) } := by
  obtain ⟨h1, h2, h3⟩ := hwf
  set upd := fun m =>
    if omMatch oid uid m then { m with role := role, updatedAt := now } else m with hupd
  have hpres : ∀ m : OrgMemRow, (upd m).orgId = m.orgId ∧ (upd m).userId = m.userId := by
    intro m
    simp only [hupd]
    split <;> exact ⟨rfl, rfl⟩
  refine ⟨?_, ?_, ?_⟩
  · intro m' hm'
    simp only [List.mem_map] at hm'
    obtain ⟨m, hm, rfl⟩ := hm'
    rw [(hpres m).1]
    exact h1 m hm
  · intro m' hm'
    simp only [List.mem_map] at hm'
    obtain ⟨m, hm, rfl⟩ := hm'
    rw [(hpres m).1, (hpres m).2]
    have heq : List.countP (omMatch m.orgId m.userId) (s.orgMemberships.map upd) =
        List.countP (omMatch m.orgId m.userId) s.orgMemberships := by
      rw [List.countP_map]
      apply countP_congr_eq
      intro a _
      simp only [Function.comp_apply, omMatch, (hpres a).1, (hpres a).2]
    rw [heq]
    exact h2 m hm
  · intro o ho
    show 1 ≤ List.countP (omOwner o.id) (s.orgMemberships.map upd)
    rw [List.countP_map]
    by_cases hrO : role = "OWNER"
    · calc 1 ≤ s.orgMemberships.countP (omOwner o.id) := h3 o ho
        _ ≤ s.orgMemberships.countP (omOwner o.id ∘ upd) := by
          apply List.countP_mono_left
          intro a _ hA
          simp only [Function.comp_apply, hupd]
          split
          · simp only [omOwner, Bool.and_eq_true, beq_iff_eq] at hA ⊢
            exact ⟨hA.1, hrO⟩
          · exact hA
    · have heq : s.orgMemberships.countP (omOwner o.id ∘ upd) =
          s.orgMemberships.countP (fun m => omOwner o.id m && !(omMatch oid uid m)) := by
        apply countP_congr_eq
        intro a _
        simp only [Function.comp_apply, hupd]
        cases hA : omMatch oid uid a with
        | true =>
          simp only [hA, if_true, Bool.not_true, Bool.and_false]
          simp only [omOwner, beq_iff_eq]
          simp [hrO]
        | false =>
          simp [hA]
      rw [heq]
      exact owner_count_after_drop hh (countP_match_le_one ⟨h1, h2, h3⟩ hh) (h3 o ho)
        (fun hc hxo => by rw [hxo] at *; exact hguard hrO hc)

theorem orgWF_remove {s : DB} {oid uid : String} {current : OrgMemRow} {pms : List ProjMemRow}
    (hh : (s.orgMemberships.filter (omMatch oid uid)).head? = some current)
    (hguard : current.role = "OWNER" → 2 ≤ orgOwnerCount s oid)
    (hwf : orgWF s) :
    orgWF { s with projectMemberships := pms,
                   orgMemberships := s.orgMemberships.filter (fun m => !(omMatch oid uid m)) } := by
  obtain ⟨h1, h2, h3⟩ := hwf
  refine ⟨?_, ?_, ?_⟩
  · intro m hm
    exact h1 m (List.mem_of_mem_filter hm)
  · intro m hm
    have hm' := List.mem_of_mem_filter hm
    show List.countP (omMatch m.orgId m.userId)
      (s.orgMemberships.filter (fun m => !(omMatch oid uid m))) ≤ 1
    rw [List.countP_filter]
    calc List.countP (fun a => omMatch m.orgId m.userId a && !(omMatch oid uid a))
          s.orgMemberships
        ≤ List.countP (omMatch m.orgId m.userId) s.orgMemberships := by
          apply List.countP_mono_left
          intro a _ hA
          simp only [Bool.and_eq_true] at hA
          exact hA.1
      _ ≤ 1 := h2 m hm'
  · intro o ho
    show 1 ≤ List.countP (omOwner o.id)
      (s.orgMemberships.filter (fun m => !(omMatch oid uid m)))
    rw [List.countP_filter]
    exact owner_count_after_drop hh (countP_match_le_one ⟨h1, h2, h3⟩ hh) (h3 o ho)
      (fun hc hxo => by rw [hxo] at *; exact hguard hc)


theorem create_ok_inv {s : DB} {name userId orgId mid : String} {now : Nat}
    {r : OrgRow} {s₂ : DB}
    (h : OrganizationsService.create s name userId orgId mid now = .ok (r, s₂)) :
    (s.organizations.filter (fun o => o.id == orgId)).isEmpty = true ∧
    s₂ = { s with
      organizations := s.organizations ++
        [{ id := orgId, name := jsTrim name, createdAt := now, updatedAt := now }],
      orgMemberships := s.orgMemberships ++
        [{ id := mid, orgId := orgId, userId := userId, role := "OWNER",
           createdAt := now, updatedAt := now }] } := by
  unfold OrganizationsService.create at h
  split_ifs at h with h1 h2 h3 h4
  simp only [Except.ok.injEq, Prod.mk.injEq] at h
  exact ⟨by simpa using h4, h.2.symm⟩

theorem addMember_ok_inv {s : DB} {oid uid role mid : String} {now : Nat}
    {r : OrgMemRow} {s₂ : DB}
    (h : OrganizationsService.addMember s oid uid role mid now = .ok (r, s₂)) :
    (∃ o ∈ s.organizations, o.id = oid) ∧
    (s.orgMemberships.filter (omMatch oid uid)).isEmpty = true ∧
    s₂ = { s with orgMemberships := s.orgMemberships ++
      [{ id := mid, orgId := oid, userId := uid, role := role,
         createdAt := now, updatedAt := now }] } := by
  unfold OrganizationsService.addMember at h
  split_ifs at h with h1 h2 h3 h4 h5
  simp only [Except.ok.injEq, Prod.mk.injEq] at h
  refine ⟨?_, ?_, h.2.symm⟩
  · obtain ⟨o, ho, hp⟩ := filter_not_isEmpty_exists h4
    exact ⟨o, ho, by simpa using hp⟩
  · simpa using h5

theorem updateMember_ok_inv {s : DB} {oid uid role : String} {now : Nat}
    {r : OrgMemRow} {s₂ : DB}
    (h : OrganizationsService.updateMember s oid uid role now = .ok (r, s₂)) :
    ∃ current, (s.orgMemberships.filter (omMatch oid uid)).head? = some current ∧
      (role ≠ "OWNER" → current.role = "OWNER" → 2 ≤ orgOwnerCount s oid) ∧
      s₂ = { s with orgMemberships := s.orgMemberships.map (fun m =>
        if omMatch oid uid m then { m with role := role, updatedAt := now } else m) } := by
  unfold OrganizationsService.updateMember at h
  split_ifs at h with h1 h2
  split at h
  · exact absurd h (by simp)
  · next current heq =>
    split_ifs at h with hcond
    simp only [Except.ok.injEq, Prod.mk.injEq] at h
    refine ⟨current, heq, ?_, h.2.symm⟩
    intro hrole hcur
    by_contra hle
    apply hcond
    simp only [Bool.and_eq_true, bne_iff_ne, beq_iff_eq, decide_eq_true_eq]
    exact ⟨⟨hrole, hcur⟩, by omega⟩

theorem removeMember_ok_inv {s : DB} {oid uid : String} {r : Bool} {s₂ : DB}
    (h : OrganizationsService.removeMember s oid uid = .ok (r, s₂)) :
    ∃ current, (s.orgMemberships.filter (omMatch oid uid)).head? = some current ∧
      (current.role = "OWNER" → 2 ≤ orgOwnerCount s oid) ∧
      s₂ = { s with
        projectMemberships := s.projectMemberships.filter (fun pm =>
          !(((s.orgMemberships.filter (omMatch oid uid)).map (fun m => m.id)).contains
            pm.orgMembershipId)),
        orgMemberships := s.orgMemberships.filter (fun m => !(omMatch oid uid m)) } := by
  unfold OrganizationsService.removeMember at h
  split at h
  · exact absurd h (by simp)
  · next current heq =>
    split_ifs at h with hcond
    simp only [Except.ok.injEq, Prod.mk.injEq] at h
    refine ⟨current, heq, ?_, h.2.symm⟩
    intro hcur
    by_contra hle
    apply hcond
    simp only [Bool.and_eq_true, beq_iff_eq, decide_eq_true_eq]
    exact ⟨hcur, by omega⟩

theorem orgWF_applyOrgOp (s : DB) (op : OrgOp) (hwf : orgWF s) :
    orgWF (applyOrgOp s op) := by
  cases op with
  | create name userId orgId mid now =>
    show orgWF (match OrganizationsService.create s name userId orgId mid now with
      | .ok (_, s₂) => s₂ | .error _ => s)
    cases h : OrganizationsService.create s name userId orgId mid now with
    | error e => exact hwf
    | ok p =>
      obtain ⟨r, s₂⟩ := p
      obtain ⟨hfresh, rfl⟩ := create_ok_inv h
      exact orgWF_create_insert rfl rfl hfresh hwf
  | addMember oid uid role mid now =>
    show orgWF (match OrganizationsService.addMember s oid uid role mid now with
      | .ok (_, s₂) => s₂ | .error _ => s)
    cases h : OrganizationsService.addMember s oid uid role mid now with
    | error e => exact hwf
    | ok p =>
      obtain ⟨r, s₂⟩ := p
      obtain ⟨horg, hnomem, rfl⟩ := addMember_ok_inv h
      exact orgWF_add_insert horg hnomem hwf
  | updateMember oid uid role now =>
    show orgWF (match OrganizationsService.updateMember s oid uid role now with
      | .ok (_, s₂) => s₂ | .error _ => s)
    cases h : OrganizationsService.updateMember s oid uid role now with
    | error e => exact hwf
    | ok p =>
      obtain ⟨r, s₂⟩ := p
      obtain ⟨current, hh, hguard, rfl⟩ := updateMember_ok_inv h
      exact orgWF_update hh hguard hwf
  | removeMember oid uid =>
    show orgWF (match OrganizationsService.removeMember s oid uid with
      | .ok (_, s₂) => s₂ | .error _ => s)
    cases h : OrganizationsService.removeMember s oid uid with
    | error e => exact hwf
    | ok p =>
      obtain ⟨r, s₂⟩ := p
      obtain ⟨current, hh, hguard, rfl⟩ := removeMember_ok_inv h
      exact orgWF_remove hh hguard hwf

theorem orgWF_applyOrgOps (s : DB) (ops : List OrgOp) (hwf : orgWF s) :
    orgWF (applyOrgOps s ops) := by
  induction ops generalizing s with
  | nil => exact hwf
  | cons op rest ih => exact ih (applyOrgOp s op) (orgWF_applyOrgOp s op hwf)

/-- Empty database, the initial state before any operation. -/
def DB.empty : DB :=
  { users := [], organizations := [], orgMemberships := [], projects := [],
    projectMemberships := [], apiKeys := [], accounts := [], sessions := [] }

/-- C1: for every organization that has at least one membership, after any
sequence of create, addMember, updateMember and removeMember of the
Organization Membership Manager (starting from any structurally well-formed
state, e.g. one produced by user provisioning alone), the number of
memberships with role OWNER is at least 1: create inserts the organization
together with an OWNER membership, and updateMember/removeMember reject with a
business-rule error any change that would demote or delete an OWNER while the
OWNER count for that organization is 1. -/
theorem C1_org_owner_invariant (s₀ : DB) (hwf : orgWF s₀) (ops : List OrgOp)
    (oid : String)
    (hmem : ∃ m ∈ (applyOrgOps s₀ ops).orgMemberships, m.orgId = oid) :
    1 ≤ orgOwnerCount (applyOrgOps s₀ ops) oid := by
  have hwf2 := orgWF_applyOrgOps s₀ ops hwf
  obtain ⟨m, hm, rfl⟩ := hmem
  obtain ⟨o, ho, hid⟩ := hwf2.1 m hm
  have hcount := hwf2.2.2 o ho
  rwa [hid] at hcount

/-- State with two provisioned users and no organizations yet. -/
def c1State : DB :=
  { DB.empty with users :=
      [{ id := "u1", name := "User One", email := "u1@example.com", image := none },
       { id := "u2", name := "User Two", email := "u2@example.com", image := none }] }

/-- Witness for C1: creating the organization "Acme" with owner u1 and then
adding u2 as ADMIN yields a state with a membership for org o1 and at least
one OWNER membership for o1. -/
theorem C1_org_owner_invariant_witness :
    orgWF c1State ∧
    (∃ m ∈ (applyOrgOps c1State
        [OrgOp.create "Acme" "u1" "o1" "m1" 0,
         OrgOp.addMember "o1" "u2" "ADMIN" "m2" 1]).orgMemberships, m.orgId = "o1") ∧
    1 ≤ orgOwnerCount (applyOrgOps c1State
        [OrgOp.create "Acme" "u1" "o1" "m1" 0,
         OrgOp.addMember "o1" "u2" "ADMIN" "m2" 1]) "o1" :=
  ⟨by decide, by decide,
   C1_org_owner_invariant c1State (by decide) _ "o1" (by decide)⟩

/-! ## ProjectMembershipsService (project-memberships service, src/unnamed/part_006) -/

def projValidRoles : List String := ["OWNER", "ADMIN", "MEMBER", "VIEWER"]

/-- WHERE clause `project_id = $1 AND user_id = $2` on project_memberships. -/
def pmMatch (projectId userId : String) (m : ProjMemRow) : Bool :=
  m.projectId == projectId && m.userId == userId

/-- WHERE clause `project_id = $1 AND role = 'OWNER'` on project_memberships. -/
def pmOwner (projectId : String) (m : ProjMemRow) : Bool :=
  m.projectId == projectId && m.role == "OWNER"

/-- Embeds `SELECT COUNT(*) FROM project_memberships WHERE project_id = $1 AND
role = 'OWNER'`. -/
def projOwnerCount (s : DB) (projectId : String) : Nat :=
  s.projectMemberships.countP (pmOwner projectId)

/-- Row shape returned by the project-membership mutations: the membership
columns of the RETURNING clause spread together with the user's name, email
and image. -/
structure ProjMemberResult where
  projectId : String
  userId : String
  role : String
  createdAt : Nat
  updatedAt : Nat
  name : String
  email : String
  image : Option String
  deriving DecidableEq

namespace ProjectMembershipsService

/-- Embeds ProjectMembershipsService.addMember.  `omId` is the identifier
`generateId` would produce for the cascaded organization membership.  The two
branches of the organization-membership lookup each carry their own conflict
check and final state: in the source the cascade INSERT happens before the
conflict check, but the transaction rolls back on Conflict, so the committed
state of the cascade branch contains either both new rows or none. -/
def addMember (s : DB) (projectId userId role : String) (omId : String)
    (now : Nat) : Except SvcError (ProjMemberResult × DB) :=
  if userId.isEmpty then
    .error (.businessLogic "El ID de usuario es requerido")
  else if !(projValidRoles.contains role) then
    .error (.businessLogic "Rol inválido. Debe ser OWNER, ADMIN, MEMBER o VIEWER")
  else
    match (s.projects.filter (fun p => p.id == projectId && p.deletedAt == none)).head? with
    | none => .error (.notFound "Proyecto")
    | some project =>
      match (s.users.filter (fun u => u.id == userId)).head? with
      | none => .error (.notFound "Usuario")
      | some user =>
        match (s.orgMemberships.filter (omMatch project.orgId userId)).head? with
        | none =>
          if !(s.projectMemberships.filter (pmMatch projectId userId)).isEmpty then
            .error (.conflict "El usuario ya es miembro de este proyecto")
          else
            .ok ({ projectId := projectId, userId := userId, role := role,
                   createdAt := now, updatedAt := now,
                   name := user.name, email := user.email, image := user.image },
              { s with
                orgMemberships := s.orgMemberships ++
                  [{ id := omId, orgId := project.orgId, userId := userId,
                     role := "VIEWER", createdAt := now, updatedAt := now }],
                projectMemberships := s.projectMemberships ++
                  [{ projectId := projectId, userId := userId, orgMembershipId := omId,
                     role := role, createdAt := now, updatedAt := now }] })
        | some om =>
          if !(s.projectMemberships.filter (pmMatch projectId userId)).isEmpty then
            .error (.conflict "El usuario ya es miembro de este proyecto")
          else
            .ok ({ projectId := projectId, userId := userId, role := role,
                   createdAt := now, updatedAt := now,
                   name := user.name, email := user.email, image := user.image },
              { s with projectMemberships := s.projectMemberships ++
                [{ projectId := projectId, userId := userId, orgMembershipId := om.id,
                   role := role, createdAt := now, updatedAt := now }] })

/-- Embeds ProjectMembershipsService.updateMember (same last-owner protection
pattern as the organization service, scoped to the project).  The trailing
user SELECT always finds a row in reachable states; the empty-string defaults
cover the branch the source leaves to an empty spread. -/
def updateMember (s : DB) (projectId userId role : String) (now : Nat) :
    Except SvcError (ProjMemberResult × DB) :=
  if role.isEmpty then
    .error (.businessLogic "El rol es requerido")
  else if !(projValidRoles.contains role) then
    .error (.businessLogic "Rol inválido. Debe ser OWNER, ADMIN, MEMBER o VIEWER")
  else
    match (s.projectMemberships.filter (pmMatch projectId userId)).head? with
    | none => .error (.notFound "Membresía de proyecto")
    | some current =>
      if role != "OWNER" && current.role == "OWNER" && projOwnerCount s projectId ≤ 1 then
        .error (.businessLogic "No se puede cambiar el rol del último propietario")
      else
        .ok ({ projectId := projectId, userId := userId, role := role,
               createdAt := current.createdAt, updatedAt := now,
               name := ((s.users.filter (fun u => u.id == userId)).head?.map
                 (fun u => u.name)).getD "",
               email := ((s.users.filter (fun u => u.id == userId)).head?.map
                 (fun u => u.email)).getD "",
               image := ((s.users.filter (fun u => u.id == userId)).head?.map
                 (fun u => u.image)).getD none },
          { s with projectMemberships := s.projectMemberships.map (fun m =>
            if pmMatch projectId userId m then { m with role := role, updatedAt := now }
            else m) })

/-- Embeds ProjectMembershipsService.removeMember: refuses to delete the last
OWNER of the project, otherwise deletes the membership row. -/
def removeMember (s : DB) (projectId userId : String) :
    Except SvcError (Bool × DB) :=
  match (s.projectMemberships.filter (pmMatch projectId userId)).head? with
  | none => .error (.notFound "Membresía de proyecto")
  | some current =>
    if current.role == "OWNER" && projOwnerCount s projectId ≤ 1 then
      .error (.businessLogic "No se puede eliminar al último propietario")
    else
      .ok (true, { s with projectMemberships :=
        s.projectMemberships.filter (fun m => !(pmMatch projectId userId m)) })

end ProjectMembershipsService

/-- Message rendering of a thrown error as seen by `error.message` in the
batch loop (`NotFoundError` composes the resource name with a suffix). -/
def errMessage : SvcError → String
  | .notFound r => r ++ " no encontrado"
  | .conflict m => m
  | .businessLogic m => m
  | .infrastructure m => m

/-- One `{userId, role}` entry of the addBatchMembers payload; a missing role
defaults to VIEWER at destructuring time. -/
structure BatchMember where
  userId : String
  role : Option String
  deriving DecidableEq

structure BatchErrorEntry where
  userId : String
  error : String
  deriving DecidableEq

structure BatchResult where
  success : List ProjMemberResult
  errors : List BatchErrorEntry
  deriving DecidableEq

/-- Sequential loop body of addBatchMembers: each entry is attempted with
`addMember`; a failure records `{userId, error.message}` and does not abort
the remaining entries.  `omIds` supplies one generated id per entry for a
possible cascade. -/
def batchGo (s : DB) (projectId : String) (now : Nat) :
    List BatchMember → List String → BatchResult × DB
  | [], _ => ({ success := [], errors := [] }, s)
  | member :: rest, omIds =>
    if member.userId.isEmpty then
      let res := batchGo s projectId now rest omIds.tail
      ({ res.1 with errors :=
          { userId := "unknown", error := "ID de usuario requerido" } :: res.1.errors },
        res.2)
    else
      match ProjectMembershipsService.addMember s projectId member.userId
        (member.role.getD "VIEWER") (omIds.headD "") now with
      | .ok (r, s₁) =>
        let res := batchGo s₁ projectId now rest omIds.tail
        ({ res.1 with success := r :: res.1.success }, res.2)
      | .error e =>
        let res := batchGo s projectId now rest omIds.tail
        ({ res.1 with errors :=
            { userId := member.userId, error := errMessage e } :: res.1.errors },
          res.2)

namespace ProjectMembershipsService

/-- Embeds ProjectMembershipsService.addBatchMembers: validates the array and
the project, then processes the entries sequentially and independently. -/
def addBatchMembers (s : DB) (projectId : String) (members : List BatchMember)
    (omIds : List String) (now : Nat) : Except SvcError (BatchResult × DB) :=
  if members.isEmpty then
    .error (.businessLogic "Se requiere un array de miembros válido")
  else if (s.projects.filter (fun p => p.id == projectId && p.deletedAt == none)).isEmpty then
    .error (.notFound "Proyecto")
  else
    .ok (batchGo s projectId now members omIds)

end ProjectMembershipsService

/-! ## Project OWNER-count invariant machinery (claim C2) -/

theorem pmMatch_eq {pid uid : String} {m : ProjMemRow} (h : pmMatch pid uid m = true) :
    m.projectId = pid ∧ m.userId = uid := by
  simp only [pmMatch, Bool.and_eq_true, beq_iff_eq] at h
  exact h

/-- Well-formedness of a project-membership table: composite key uniqueness
and at least one OWNER for every project that appears. -/
def pmWFlist (l : List ProjMemRow) : Prop :=
  (∀ m ∈ l, l.countP (pmMatch m.projectId m.userId) ≤ 1) ∧
  (∀ m ∈ l, 1 ≤ l.countP (pmOwner m.projectId))

def projMemWF (s : DB) : Prop := pmWFlist s.projectMemberships

instance (l : List ProjMemRow) : Decidable (pmWFlist l) := by
  unfold pmWFlist
  infer_instance

instance (s : DB) : Decidable (projMemWF s) := by
  unfold projMemWF
  infer_instance

theorem pm_owner_count_after_drop {mems : List ProjMemRow} {pid uid : String}
    {current : ProjMemRow}
    (hh : (mems.filter (pmMatch pid uid)).head? = some current)
    (hpair : mems.countP (pmMatch pid uid) ≤ 1)
    {x : String} (hx : 1 ≤ mems.countP (pmOwner x))
    (hguard : current.role = "OWNER" → x = pid → 2 ≤ mems.countP (pmOwner pid)) :
    1 ≤ mems.countP (fun m => pmOwner x m && !(pmMatch pid uid m)) := by
  have hsplit := countP_split mems (pmOwner x) (pmMatch pid uid)
  by_cases hro : current.role = "OWNER"
  · by_cases hxo : x = pid
    · have h2 := hguard hro hxo
      have hle : mems.countP (fun m => pmOwner x m && pmMatch pid uid m) ≤
          mems.countP (pmMatch pid uid) :=
        List.countP_mono_left (fun a _ h => by
          simp only [Bool.and_eq_true] at h; exact h.2)
      subst hxo
      omega
    · have hz : mems.countP (fun m => pmOwner x m && pmMatch pid uid m) = 0 := by
        rw [List.countP_eq_zero]
        intro a _ hc
        simp only [Bool.and_eq_true] at hc
        have hpp := (pmMatch_eq hc.2).1
        simp only [pmOwner, Bool.and_eq_true, beq_iff_eq] at hc
        exact hxo (hc.1.1 ▸ hpp.symm ▸ rfl)
      omega
  · have hsingle : mems.filter (pmMatch pid uid) = [current] := filter_eq_singleton hh hpair
    have hz : mems.countP (fun m => pmOwner x m && pmMatch pid uid m) = 0 := by
      rw [List.countP_eq_zero]
      intro a ha hc
      simp only [Bool.and_eq_true] at hc
      have hmem : a ∈ mems.filter (pmMatch pid uid) :=
        List.mem_filter.mpr ⟨ha, hc.2⟩
      rw [hsingle] at hmem
      have haeq : a = current := by simpa using hmem
      simp only [pmOwner, Bool.and_eq_true, beq_iff_eq] at hc
      exact hro (haeq ▸ hc.1.2)
    omega

theorem pm_countP_match_le_one {l : List ProjMemRow} (hwf : pmWFlist l)
    {pid uid : String} {current : ProjMemRow}
    (hh : (l.filter (pmMatch pid uid)).head? = some current) :
    l.countP (pmMatch pid uid) ≤ 1 := by
  obtain ⟨hcm, hcp⟩ := head?_filter_mem hh
  obtain ⟨ho, hu⟩ := pmMatch_eq hcp
  have := hwf.1 current hcm
  rwa [ho, hu] at this

theorem pmWF_insert {l : List ProjMemRow} {row : ProjMemRow}
    (hnomem : l.countP (pmMatch row.projectId row.userId) = 0)
    (hadm : row.role = "OWNER" ∨ ∃ m ∈ l, m.projectId = row.projectId)
    (hwf : pmWFlist l) :
    pmWFlist (l ++ [row]) := by
  obtain ⟨h1, h2⟩ := hwf
  constructor
  · intro m hm
    simp only [List.mem_append, List.mem_singleton] at hm
    simp only [List.countP_append]
    rcases hm with hm | hm
    · have hz : List.countP (pmMatch m.projectId m.userId) [row] = 0 := by
        rw [List.countP_eq_zero]
        intro a ha hc
        have ha2 : a = row := by simpa using ha
        subst ha2
        obtain ⟨hp, hu⟩ := pmMatch_eq hc
        rw [List.countP_eq_zero] at hnomem
        exact hnomem m hm (by simp [pmMatch, hp, hu])
      have := h1 m hm
      omega
    · subst hm
      have hone : List.countP (pmMatch m.projectId m.userId) [m] ≤ 1 := by
        simp only [List.countP_cons, List.countP_nil]
        split <;> omega
      omega
  · intro m hm
    simp only [List.mem_append, List.mem_singleton] at hm
    simp only [List.countP_append]
    rcases hm with hm | hm
    · have := h2 m hm
      omega
    · subst hm
      rcases hadm with hadm | ⟨m₀, hm₀, hpid⟩
      · have hone : List.countP (pmOwner m.projectId) [m] = 1 := by
          simp [List.countP_cons, pmOwner, hadm]
        omega
      · have := h2 m₀ hm₀
        rw [hpid] at this
        omega

theorem pmWF_update {l : List ProjMemRow} {pid uid role : String} {now : Nat}
    {current : ProjMemRow}
    (hh : (l.filter (pmMatch pid uid)).head? = some current)
    (hguard : role ≠ "OWNER" → current.role = "OWNER" →
      2 ≤ l.countP (pmOwner pid))
    (hwf : pmWFlist l) :
    pmWFlist (l.map (fun m =>
      if pmMatch pid uid m then { m with role := role, updatedAt := now } else m)) := by
  obtain ⟨h1, h2⟩ := hwf
  set upd := fun (m : ProjMemRow) =>
    if pmMatch pid uid m then { m with role := role, updatedAt := now } else m with hupd
  have hpres : ∀ m : ProjMemRow, (upd m).projectId = m.projectId ∧ (upd m).userId = m.userId := by
    intro m
    simp only [hupd]
    split <;> exact ⟨rfl, rfl⟩
  constructor
  · intro m2 hm2
    simp only [List.mem_map] at hm2
    obtain ⟨m, hm, rfl⟩ := hm2
    rw [(hpres m).1, (hpres m).2]
    have heq : List.countP (pmMatch m.projectId m.userId) (l.map upd) =
        List.countP (pmMatch m.projectId m.userId) l := by
      rw [List.countP_map]
      apply countP_congr_eq
      intro a _
      simp only [Function.comp_apply, pmMatch, (hpres a).1, (hpres a).2]
    rw [heq]
    exact h1 m hm
  · intro m2 hm2
    simp only [List.mem_map] at hm2
    obtain ⟨m, hm, rfl⟩ := hm2
    rw [(hpres m).1]
    rw [List.countP_map]
    by_cases hrO : role = "OWNER"
    · calc 1 ≤ l.countP (pmOwner m.projectId) := h2 m hm
        _ ≤ l.countP (pmOwner m.projectId ∘ upd) := by
          apply List.countP_mono_left
          intro a _ hA
          simp only [Function.comp_apply, hupd]
          split
          · simp only [pmOwner, Bool.and_eq_true, beq_iff_eq] at hA ⊢
            exact ⟨hA.1, hrO⟩
          · exact hA
    · have heq : l.countP (pmOwner m.projectId ∘ upd) =
          l.countP (fun a => pmOwner m.projectId a && !(pmMatch pid uid a)) := by
        apply countP_congr_eq
        intro a _
        simp only [Function.comp_apply, hupd]
        cases hA : pmMatch pid uid a with
        | true =>
          simp only [hA, if_true, Bool.not_true, Bool.and_false]
          simp only [pmOwner, beq_iff_eq]
          simp [hrO]
        | false =>
          simp [hA]
      rw [heq]
      exact pm_owner_count_after_drop hh (pm_countP_match_le_one ⟨h1, h2⟩ hh) (h2 m hm)
        (fun hc hxo => by rw [hxo] at *; exact hguard hrO hc)

theorem pmWF_remove {l : List ProjMemRow} {pid uid : String} {current : ProjMemRow}
    (hh : (l.filter (pmMatch pid uid)).head? = some current)
    (hguard : current.role = "OWNER" → 2 ≤ l.countP (pmOwner pid))
    (hwf : pmWFlist l) :
    pmWFlist (l.filter (fun m => !(pmMatch pid uid m))) := by
  obtain ⟨h1, h2⟩ := hwf
  constructor
  · intro m hm
    have hm2 := List.mem_of_mem_filter hm
    rw [List.countP_filter]
    calc List.countP (fun a => pmMatch m.projectId m.userId a && !(pmMatch pid uid a)) l
        ≤ List.countP (pmMatch m.projectId m.userId) l := by
          apply List.countP_mono_left
          intro a _ hA
          simp only [Bool.and_eq_true] at hA
          exact hA.1
      _ ≤ 1 := h1 m hm2
  · intro m hm
    have hm2 := List.mem_of_mem_filter hm
    rw [List.countP_filter]
    exact pm_owner_count_after_drop hh (pm_countP_match_le_one ⟨h1, h2⟩ hh) (h2 m hm2)
      (fun hc hxo => by rw [hxo] at *; exact hguard hc)

/-- One call to the Project Membership Manager. -/
inductive ProjOp where
  | addMember (projectId userId role omId : String) (now : Nat)
  | updateMember (projectId userId role : String) (now : Nat)
  | removeMember (projectId userId : String)
  deriving DecidableEq

/-- Runs one project-membership operation; a thrown error rolls the
transaction back, leaving the state unchanged. -/
def applyProjOp (s : DB) : ProjOp → DB
  | .addMember pid uid role omId now =>
    match ProjectMembershipsService.addMember s pid uid role omId now with
    | .ok (_, s₂) => s₂
    | .error _ => s
  | .updateMember pid uid role now =>
    match ProjectMembershipsService.updateMember s pid uid role now with
    | .ok (_, s₂) => s₂
    | .error _ => s
  | .removeMember pid uid =>
    match ProjectMembershipsService.removeMember s pid uid with
    | .ok (_, s₂) => s₂
    | .error _ => s

def applyProjOps (s : DB) (ops : List ProjOp) : DB :=
  ops.foldl applyProjOp s

/-- Side condition under which one project operation preserves the OWNER-count
invariant: addMember must either grant OWNER or target a project that already
has a membership (hence, in a well-formed state, an OWNER). -/
def projOpAdmissibleB (s : DB) : ProjOp → Bool
  | .addMember pid _ role _ _ =>
    role == "OWNER" || s.projectMemberships.any (fun m => m.projectId == pid)
  | .updateMember _ _ _ _ => true
  | .removeMember _ _ => true

def projOpsAdmissibleB : DB → List ProjOp → Bool
  | _, [] => true
  | s, op :: rest => projOpAdmissibleB s op && projOpsAdmissibleB (applyProjOp s op) rest

theorem proj_addMember_ok_inv {s : DB} {pid uid role omId : String} {now : Nat}
    {r : ProjMemberResult} {s₂ : DB}
    (h : ProjectMembershipsService.addMember s pid uid role omId now = .ok (r, s₂)) :
    (s.projectMemberships.filter (pmMatch pid uid)).isEmpty = true ∧
    ∃ omid, s₂.projectMemberships = s.projectMemberships ++
      [{ projectId := pid, userId := uid, orgMembershipId := omid, role := role,
         createdAt := now, updatedAt := now }] := by
  unfold ProjectMembershipsService.addMember at h
  split_ifs at h with h1 h2 hc
  · split at h
    · exact absurd h (by simp)
    · split at h
      · exact absurd h (by simp)
      · split at h <;> exact absurd h (by simp)
  · split at h
    · exact absurd h (by simp)
    · next project heqp =>
      split at h
      · exact absurd h (by simp)
      · next user hequ =>
        split at h
        · next heqom =>
          simp only [Except.ok.injEq, Prod.mk.injEq] at h
          refine ⟨by simpa using hc, omId, ?_⟩
          rw [← h.2]
        · next om heqom =>
          simp only [Except.ok.injEq, Prod.mk.injEq] at h
          refine ⟨by simpa using hc, om.id, ?_⟩
          rw [← h.2]

theorem proj_updateMember_ok_inv {s : DB} {pid uid role : String} {now : Nat}
    {r : ProjMemberResult} {s₂ : DB}
    (h : ProjectMembershipsService.updateMember s pid uid role now = .ok (r, s₂)) :
    ∃ current, (s.projectMemberships.filter (pmMatch pid uid)).head? = some current ∧
      (role ≠ "OWNER" → current.role = "OWNER" → 2 ≤ projOwnerCount s pid) ∧
      s₂.projectMemberships = s.projectMemberships.map (fun m =>
        if pmMatch pid uid m then { m with role := role, updatedAt := now } else m) := by
  unfold ProjectMembershipsService.updateMember at h
  split_ifs at h with h1 h2
  split at h
  · exact absurd h (by simp)
  · next current heq =>
    split_ifs at h with hcond
    simp only [Except.ok.injEq, Prod.mk.injEq] at h
    refine ⟨current, heq, ?_, by rw [← h.2]⟩
    intro hrole hcur
    by_contra hle
    apply hcond
    simp only [Bool.and_eq_true, bne_iff_ne, beq_iff_eq, decide_eq_true_eq]
    exact ⟨⟨hrole, hcur⟩, by omega⟩

theorem proj_removeMember_ok_inv {s : DB} {pid uid : String} {r : Bool} {s₂ : DB}
    (h : ProjectMembershipsService.removeMember s pid uid = .ok (r, s₂)) :
    ∃ current, (s.projectMemberships.filter (pmMatch pid uid)).head? = some current ∧
      (current.role = "OWNER" → 2 ≤ projOwnerCount s pid) ∧
      s₂.projectMemberships =
        s.projectMemberships.filter (fun m => !(pmMatch pid uid m)) := by
  unfold ProjectMembershipsService.removeMember at h
  split at h
  · exact absurd h (by simp)
  · next current heq =>
    split_ifs at h with hcond
    simp only [Except.ok.injEq, Prod.mk.injEq] at h
    refine ⟨current, heq, ?_, by rw [← h.2]⟩
    intro hcur
    by_contra hle
    apply hcond
    simp only [Bool.and_eq_true, beq_iff_eq, decide_eq_true_eq]
    exact ⟨hcur, by omega⟩

theorem projMemWF_applyProjOp (s : DB) (op : ProjOp) (hwf : projMemWF s)
    (hadm : projOpAdmissibleB s op = true) : projMemWF (applyProjOp s op) := by
  cases op with
  | addMember pid uid role omId now =>
    show projMemWF (match ProjectMembershipsService.addMember s pid uid role omId now with
      | .ok (_, s₂) => s₂ | .error _ => s)
    cases h : ProjectMembershipsService.addMember s pid uid role omId now with
    | error e => exact hwf
    | ok p =>
      obtain ⟨r, s₂⟩ := p
      obtain ⟨hc, omid, hpm⟩ := proj_addMember_ok_inv h
      show pmWFlist s₂.projectMemberships
      rw [hpm]
      apply pmWF_insert (filter_isEmpty_countP hc) ?_ hwf
      simp only [projOpAdmissibleB, Bool.or_eq_true, beq_iff_eq, List.any_eq_true] at hadm
      rcases hadm with hadm | ⟨m, hm, hp⟩
      · exact Or.inl hadm
      · exact Or.inr ⟨m, hm, by simpa using hp⟩
  | updateMember pid uid role now =>
    show projMemWF (match ProjectMembershipsService.updateMember s pid uid role now with
      | .ok (_, s₂) => s₂ | .error _ => s)
    cases h : ProjectMembershipsService.updateMember s pid uid role now with
    | error e => exact hwf
    | ok p =>
      obtain ⟨r, s₂⟩ := p
      obtain ⟨current, hh, hguard, hpm⟩ := proj_updateMember_ok_inv h
      show pmWFlist s₂.projectMemberships
      rw [hpm]
      exact pmWF_update hh hguard hwf
  | removeMember pid uid =>
    show projMemWF (match ProjectMembershipsService.removeMember s pid uid with
      | .ok (_, s₂) => s₂ | .error _ => s)
    cases h : ProjectMembershipsService.removeMember s pid uid with
    | error e => exact hwf
    | ok p =>
      obtain ⟨r, s₂⟩ := p
      obtain ⟨current, hh, hguard, hpm⟩ := proj_removeMember_ok_inv h
      show pmWFlist s₂.projectMemberships
      rw [hpm]
      exact pmWF_remove hh hguard hwf

theorem projMemWF_applyProjOps (s : DB) (ops : List ProjOp) (hwf : projMemWF s)
    (hadm : projOpsAdmissibleB s ops = true) : projMemWF (applyProjOps s ops) := by
  induction ops generalizing s with
  | nil => exact hwf
  | cons op rest ih =>
    simp only [projOpsAdmissibleB, Bool.and_eq_true] at hadm
    exact ih (applyProjOp s op) (projMemWF_applyProjOp s op hwf hadm.1) hadm.2

/-- State with one user, one organization and one empty project (no
memberships of any kind). -/
def c2State : DB :=
  { DB.empty with
    users := [{ id := "u1", name := "User One", email := "u1@example.com", image := none }],
    organizations := [{ id := "o1", name := "Org", createdAt := 0, updatedAt := 0 }],
    projects := [{ id := "p1", name := "Proj", orgId := "o1", deletedAt := none,
                   createdAt := 0, updatedAt := 0 }] }

/-- C2 counterexample: the claim as stated is false.  From a well-formed state,
a single addMember of the first member with role VIEWER succeeds and leaves
project p1 with one membership and zero OWNER memberships — addMember performs
no OWNER-count check at all, so the invariant does not hold "regardless of the
role passed to addMember". -/
theorem C2_counterexample :
    projMemWF c2State ∧
    (∃ m ∈ (applyProjOp c2State (ProjOp.addMember "p1" "u1" "VIEWER" "om1" 0)).projectMemberships,
      m.projectId = "p1") ∧
    projOwnerCount (applyProjOp c2State (ProjOp.addMember "p1" "u1" "VIEWER" "om1" 0)) "p1" = 0 := by
  decide

/-- C2 (amended): after any sequence of addMember, updateMember and
removeMember starting from a well-formed state, every project with at least
one membership has at least one OWNER membership, provided every addMember in
the sequence either grants role OWNER or targets a project that already has a
membership.  Without that proviso the invariant fails: adding the first member
of a project with a non-OWNER role creates a project with memberships and no
OWNER (updateMember and removeMember do protect the last OWNER
unconditionally). -/
theorem C2_proj_owner_invariant_amended (s₀ : DB) (hwf : projMemWF s₀)
    (ops : List ProjOp) (hadm : projOpsAdmissibleB s₀ ops = true) (pid : String)
    (hmem : ∃ m ∈ (applyProjOps s₀ ops).projectMemberships, m.projectId = pid) :
    1 ≤ projOwnerCount (applyProjOps s₀ ops) pid := by
  have hwf2 := projMemWF_applyProjOps s₀ ops hwf hadm
  obtain ⟨m, hm, rfl⟩ := hmem
  exact hwf2.2 m hm

/-- Witness for the amended C2: adding the first member with role OWNER and a
second member with role MEMBER keeps at least one OWNER on project p1. -/
theorem C2_proj_owner_invariant_amended_witness :
    projMemWF c2State ∧
    projOpsAdmissibleB c2State
      [ProjOp.addMember "p1" "u1" "OWNER" "om1" 0] = true ∧
    (∃ m ∈ (applyProjOps c2State
      [ProjOp.addMember "p1" "u1" "OWNER" "om1" 0]).projectMemberships,
      m.projectId = "p1") ∧
    1 ≤ projOwnerCount (applyProjOps c2State
      [ProjOp.addMember "p1" "u1" "OWNER" "om1" 0]) "p1" :=
  ⟨by decide, by decide, by decide,
   C2_proj_owner_invariant_amended c2State (by decide) _ (by decide) "p1" (by decide)⟩

/-- State whose only organization membership is one OWNER held by u1, and
whose only project membership is one OWNER held by u1. -/
def c5State : DB :=
  { DB.empty with
    users := [{ id := "u1", name := "User One", email := "u1@example.com", image := none }],
    organizations := [{ id := "o1", name := "Org", createdAt := 0, updatedAt := 0 }],
    orgMemberships := [{ id := "m1", orgId := "o1", userId := "u1", role := "OWNER",
                         createdAt := 0, updatedAt := 0 }],
    projects := [{ id := "p1", name := "Proj", orgId := "o1", deletedAt := none,
                   createdAt := 0, updatedAt := 0 }],
    projectMemberships := [{ projectId := "p1", userId := "u1", orgMembershipId := "m1",
                             role := "OWNER", createdAt := 0, updatedAt := 0 }] }

/-- C5 counterexample: the claim as stated is false.  In a state whose only
organization membership is a single OWNER, removeMember does not succeed: it
fails with the last-owner business-rule error (the guard fires whenever the
OWNER count is at most 1, with no exemption for the sole remaining
membership); the same happens for the project case. -/
theorem C5_counterexample :
    c5State.orgMemberships.length = 1 ∧
    c5State.projectMemberships.length = 1 ∧
    OrganizationsService.removeMember c5State "o1" "u1" =
      .error (.businessLogic "No se puede eliminar al último propietario") ∧
    ProjectMembershipsService.removeMember c5State "p1" "u1" =
      .error (.businessLogic "No se puede eliminar al último propietario") := by
  decide

/-- C5 (amended): removing a membership whose role is OWNER fails with the
last-owner business-rule error whenever the organization's (or project's)
OWNER count is at most 1 — including the case where that OWNER membership is
the sole remaining membership.  The prohibition is not limited to states in
which other members remain. -/
theorem C5_last_owner_removal_amended (s : DB) (oid uid pid uid2 : String)
    (mo : OrgMemRow) (mp : ProjMemRow)
    (ho : (s.orgMemberships.filter (omMatch oid uid)).head? = some mo)
    (hro : mo.role = "OWNER") (hco : orgOwnerCount s oid ≤ 1)
    (hp : (s.projectMemberships.filter (pmMatch pid uid2)).head? = some mp)
    (hrp : mp.role = "OWNER") (hcp : projOwnerCount s pid ≤ 1) :
    OrganizationsService.removeMember s oid uid =
      .error (.businessLogic "No se puede eliminar al último propietario") ∧
    ProjectMembershipsService.removeMember s pid uid2 =
      .error (.businessLogic "No se puede eliminar al último propietario") := by
  constructor
  · unfold OrganizationsService.removeMember
    rw [ho]
    have hcond : (mo.role == "OWNER" && decide (orgOwnerCount s oid ≤ 1)) = true := by
      simp [hro, hco]
    simp [hcond]
  · unfold ProjectMembershipsService.removeMember
    rw [hp]
    have hcond : (mp.role == "OWNER" && decide (projOwnerCount s pid ≤ 1)) = true := by
      simp [hrp, hcp]
    simp [hcond]

/-- Witness for the amended C5 at the concrete sole-owner state. -/
theorem C5_last_owner_removal_amended_witness :
    OrganizationsService.removeMember c5State "o1" "u1" =
      .error (.businessLogic "No se puede eliminar al último propietario") ∧
    ProjectMembershipsService.removeMember c5State "p1" "u1" =
      .error (.businessLogic "No se puede eliminar al último propietario") :=
  C5_last_owner_removal_amended c5State "o1" "u1" "p1" "u1"
    { id := "m1", orgId := "o1", userId := "u1", role := "OWNER",
      createdAt := 0, updatedAt := 0 }
    { projectId := "p1", userId := "u1", orgMembershipId := "m1", role := "OWNER",
      createdAt := 0, updatedAt := 0 }
    (by decide) (by decide) (by decide) (by decide) (by decide) (by decide)

/-- C6: for addMember on an existing non-deleted project and existing user who
holds no membership in the project's organization, a successful call commits
exactly one new OrganizationMembership with role VIEWER and exactly one new
ProjectMembership referencing it, and a failed call (for any reason, including
Conflict on an existing project membership) commits neither row — the
transaction rolls back, leaving the state unchanged. -/
theorem C6_cascade_auto_join (s : DB) (pid uid role omId : String) (now : Nat)
    (project : ProjectRow) (user : UserRow)
    (hproj : (s.projects.filter (fun p => p.id == pid && p.deletedAt == none)).head? =
      some project)
    (huser : (s.users.filter (fun u => u.id == uid)).head? = some user)
    (hnoom : (s.orgMemberships.filter (omMatch project.orgId uid)).head? = none) :
    (∀ r s₂, ProjectMembershipsService.addMember s pid uid role omId now = .ok (r, s₂) →
      s₂.orgMemberships = s.orgMemberships ++
        [{ id := omId, orgId := project.orgId, userId := uid, role := "VIEWER",
           createdAt := now, updatedAt := now }] ∧
      s₂.projectMemberships = s.projectMemberships ++
        [{ projectId := pid, userId := uid, orgMembershipId := omId, role := role,
           createdAt := now, updatedAt := now }]) ∧
    (∀ e, ProjectMembershipsService.addMember s pid uid role omId now = .error e →
      applyProjOp s (ProjOp.addMember pid uid role omId now) = s) := by
  constructor
  · intro r s₂ h
    unfold ProjectMembershipsService.addMember at h
    split_ifs at h with h1 h2 hc
    · split at h
      · exact absurd h (by simp)
      · split at h
        · exact absurd h (by simp)
        · split at h <;> exact absurd h (by simp)
    · split at h
      · exact absurd h (by simp)
      · next project2 heqp =>
        rw [hproj] at heqp
        have hp2 : project2 = project := by simpa using heqp.symm
        subst hp2
        split at h
        · exact absurd h (by simp)
        · next user2 hequ =>
          split at h
          · next heqom =>
            simp only [Except.ok.injEq, Prod.mk.injEq] at h
            rw [← h.2]
            exact ⟨rfl, rfl⟩
          · next om heqom =>
            rw [hnoom] at heqom
            exact absurd heqom (by simp)
  · intro e h
    show (match ProjectMembershipsService.addMember s pid uid role omId now with
      | .ok (_, s₂) => s₂ | .error _ => s) = s
    rw [h]

/-- Witness for C6: at the concrete one-project state, addMember for a user
with no organization membership commits exactly the cascaded VIEWER
organization membership and the new project membership. -/
theorem C6_cascade_auto_join_witness :
    (applyProjOp c2State (ProjOp.addMember "p1" "u1" "VIEWER" "om1" 0)).orgMemberships =
      c2State.orgMemberships ++
        [{ id := "om1", orgId := "o1", userId := "u1", role := "VIEWER",
           createdAt := 0, updatedAt := 0 }] ∧
    (applyProjOp c2State (ProjOp.addMember "p1" "u1" "VIEWER" "om1" 0)).projectMemberships =
      c2State.projectMemberships ++
        [{ projectId := "p1", userId := "u1", orgMembershipId := "om1", role := "VIEWER",
           createdAt := 0, updatedAt := 0 }] := by
  have h := (C6_cascade_auto_join c2State "p1" "u1" "VIEWER" "om1" 0
    { id := "p1", name := "Proj", orgId := "o1", deletedAt := none,
      createdAt := 0, updatedAt := 0 }
    { id := "u1", name := "User One", email := "u1@example.com", image := none }
    (by decide) (by decide) (by decide)).1
  have hok : ProjectMembershipsService.addMember c2State "p1" "u1" "VIEWER" "om1" 0 =
      .ok ({ projectId := "p1", userId := "u1", role := "VIEWER",
             createdAt := 0, updatedAt := 0, name := "User One",
             email := "u1@example.com", image := none },
        { c2State with
          orgMemberships :=
            [{ id := "om1", orgId := "o1", userId := "u1", role := "VIEWER",
               createdAt := 0, updatedAt := 0 }],
          projectMemberships :=
            [{ projectId := "p1", userId := "u1", orgMembershipId := "om1", role := "VIEWER",
               createdAt := 0, updatedAt := 0 }] }) := by decide
  obtain ⟨h1, h2⟩ := h _ _ hok
  constructor
  · show (match ProjectMembershipsService.addMember c2State "p1" "u1" "VIEWER" "om1" 0 with
      | .ok (_, s₂) => s₂ | .error _ => c2State).orgMemberships = _
    rw [hok]
    exact h1
  · show (match ProjectMembershipsService.addMember c2State "p1" "u1" "VIEWER" "om1" 0 with
      | .ok (_, s₂) => s₂ | .error _ => c2State).projectMemberships = _
    rw [hok]
    exact h2

/-! ## UsersService (src/src/services/users.service.js), deletion path -/

/-- Message of the business-rule error raised when a user still belongs to
`n` organizations. -/
def userDeleteBlockedMsg (n : Nat) : String :=
  "No se puede eliminar el usuario porque pertenece a " ++ toString n ++
    " organización(es). Elimine primero las membresías del usuario."

namespace UsersService

/-- Embeds UsersService.delete: counts the user's organization memberships;
a nonzero count raises a business-rule error naming the count.  Otherwise the
linked "Account" and "Session" rows and then the user row are deleted in one
transaction; a missing user row raises NotFound, rolling the whole
transaction back (so the account/session deletions are undone, which the
embedding reflects by checking before committing). -/
def delete (s : DB) (id : String) : Except SvcError (Bool × DB) :=
  if 0 < s.orgMemberships.countP (fun m => m.userId == id) then
    .error (.businessLogic
      (userDeleteBlockedMsg (s.orgMemberships.countP (fun m => m.userId == id))))
  else if (s.users.filter (fun u => u.id == id)).isEmpty then
    .error (.notFound "Usuario")
  else
    .ok (true, { s with
      accounts := s.accounts.filter (fun a => !(a.userId == id)),
      sessions := s.sessions.filter (fun x => !(x.userId == id)),
      users := s.users.filter (fun u => !(u.id == id)) })

end UsersService

/-- Committed state of a deleteUser call: the transaction state on success,
the unchanged state on a thrown error. -/
def applyUserDelete (s : DB) (id : String) : DB :=
  match UsersService.delete s id with
  | .ok (_, s₂) => s₂
  | .error _ => s

/-- C7: deleteUser on a user with at least one OrganizationMembership fails
with a business-rule error whose message names the membership count and the
state (user, account and session rows included) is unchanged; on a user with
zero memberships it deletes the linked account and session rows and the user
row in one transaction, failing NotFound (with no committed change) only if
the user row is absent. -/
theorem C7_delete_user_guard (s : DB) (id : String) :
    (0 < s.orgMemberships.countP (fun m => m.userId == id) →
      UsersService.delete s id = .error (.businessLogic
        (userDeleteBlockedMsg (s.orgMemberships.countP (fun m => m.userId == id)))) ∧
      applyUserDelete s id = s) ∧
    (s.orgMemberships.countP (fun m => m.userId == id) = 0 →
      (¬(s.users.filter (fun u => u.id == id)).isEmpty = true →
        UsersService.delete s id = .ok (true, { s with
          accounts := s.accounts.filter (fun a => !(a.userId == id)),
          sessions := s.sessions.filter (fun x => !(x.userId == id)),
          users := s.users.filter (fun u => !(u.id == id)) })) ∧
      ((s.users.filter (fun u => u.id == id)).isEmpty = true →
        UsersService.delete s id = .error (.notFound "Usuario") ∧
        applyUserDelete s id = s)) := by
  constructor
  · intro hpos
    have hdel : UsersService.delete s id = .error (.businessLogic
        (userDeleteBlockedMsg (s.orgMemberships.countP (fun m => m.userId == id)))) := by
      unfold UsersService.delete
      rw [if_pos hpos]
    exact ⟨hdel, by unfold applyUserDelete; rw [hdel]⟩
  · intro hzero
    constructor
    · intro huser
      unfold UsersService.delete
      rw [if_neg (by omega), if_neg huser]
    · intro hempty
      have hdel : UsersService.delete s id = .error (.notFound "Usuario") := by
        unfold UsersService.delete
        rw [if_neg (by omega), if_pos hempty]
      exact ⟨hdel, by unfold applyUserDelete; rw [hdel]⟩

/-- State with one user who has no memberships but one linked account and one
linked session. -/
def c7State : DB :=
  { DB.empty with
    users := [{ id := "u1", name := "User One", email := "u1@example.com", image := none }],
    accounts := [{ userId := "u1" }],
    sessions := [{ userId := "u1" }] }

/-- Witness for C7 at concrete states: u1 with one membership is protected
(count 1 appears in the message); u1 without memberships is deleted together
with account and session rows; a missing user yields NotFound. -/
theorem C7_delete_user_guard_witness :
    c5State.orgMemberships.countP (fun m => m.userId == "u1") = 1 ∧
    UsersService.delete c5State "u1" =
      .error (.businessLogic (userDeleteBlockedMsg 1)) ∧
    applyUserDelete c5State "u1" = c5State ∧
    UsersService.delete c7State "u1" =
      .ok (true, { c7State with users := [], accounts := [], sessions := [] }) ∧
    UsersService.delete c7State "ghost" = .error (.notFound "Usuario") := by
  have h1 := (C7_delete_user_guard c5State "u1").1 (by decide)
  have h2 := ((C7_delete_user_guard c7State "u1").2 (by decide)).1 (by decide)
  have h3 := ((C7_delete_user_guard c7State "ghost").2 (by decide)).2 (by decide)
  refine ⟨by decide, ?_, h1.2, ?_, h3.1⟩
  · rw [h1.1]
    decide
  · rw [h2]
    decide

/-- Loop invariant of the batch member loop: the outcomes partition the
entries (one success or one error each), the committed state extends the
initial membership table by exactly one appended row per success (failed
entries roll back individually and remove nothing), and every error entry
carries the original userId (or "unknown" when the entry had none). -/
theorem batchGo_spec (pid : String) (now : Nat) (members : List BatchMember) :
    ∀ (s : DB) (omIds : List String),
      ((batchGo s pid now members omIds).1.success.length +
        (batchGo s pid now members omIds).1.errors.length = members.length) ∧
      (∃ newRows, (batchGo s pid now members omIds).2.projectMemberships =
          s.projectMemberships ++ newRows ∧
        newRows.length = (batchGo s pid now members omIds).1.success.length) ∧
      (∀ e ∈ (batchGo s pid now members omIds).1.errors, ∃ m ∈ members,
        e.userId = (if m.userId.isEmpty then "unknown" else m.userId)) := by
  induction members with
  | nil =>
    intro s omIds
    exact ⟨rfl, ⟨[], by simp [batchGo], rfl⟩, by simp [batchGo]⟩
  | cons member rest ih =>
    intro s omIds
    by_cases hu : member.userId.isEmpty = true
    · have hgo : batchGo s pid now (member :: rest) omIds =
        ({ (batchGo s pid now rest omIds.tail).1 with errors :=
            { userId := "unknown", error := "ID de usuario requerido" } ::
              (batchGo s pid now rest omIds.tail).1.errors },
          (batchGo s pid now rest omIds.tail).2) := by
        simp only [batchGo]
        rw [if_pos hu]
      obtain ⟨ihl, ⟨rows, hrows, hlen⟩, iherr⟩ := ih s omIds.tail
      rw [hgo]
      refine ⟨?_, ⟨rows, hrows, hlen⟩, ?_⟩
      · simp only [List.length_cons]
        omega
      · intro e he
        simp only [List.mem_cons] at he
        rcases he with rfl | he
        · exact ⟨member, List.mem_cons_self _ _, by simp [hu]⟩
        · obtain ⟨m, hm, hq⟩ := iherr e he
          exact ⟨m, List.mem_cons_of_mem _ hm, hq⟩
    · cases ham : ProjectMembershipsService.addMember s pid member.userId
        (member.role.getD "VIEWER") (omIds.headD "") now with
      | ok p =>
        obtain ⟨r₀, s₁⟩ := p
        have hgo : batchGo s pid now (member :: rest) omIds =
          ({ (batchGo s₁ pid now rest omIds.tail).1 with success :=
              r₀ :: (batchGo s₁ pid now rest omIds.tail).1.success },
            (batchGo s₁ pid now rest omIds.tail).2) := by
          simp only [batchGo]
          rw [if_neg hu, ham]
        obtain ⟨ihl, ⟨rows, hrows, hlen⟩, iherr⟩ := ih s₁ omIds.tail
        obtain ⟨hc, omid, hpm⟩ := proj_addMember_ok_inv ham
        rw [hgo]
        refine ⟨?_,
          ⟨{ projectId := pid, userId := member.userId,
             orgMembershipId := omid, role := member.role.getD "VIEWER",
             createdAt := now, updatedAt := now } :: rows, ?_, ?_⟩, ?_⟩
        · simp only [List.length_cons]
          omega
        · rw [hrows, hpm, List.append_assoc]
          rfl
        · simp only [List.length_cons, hlen]
        · intro e he
          obtain ⟨m, hm, hq⟩ := iherr e he
          exact ⟨m, List.mem_cons_of_mem _ hm, hq⟩
      | error err =>
        have hgo : batchGo s pid now (member :: rest) omIds =
          ({ (batchGo s pid now rest omIds.tail).1 with errors :=
              { userId := member.userId, error := errMessage err } ::
                (batchGo s pid now rest omIds.tail).1.errors },
            (batchGo s pid now rest omIds.tail).2) := by
          simp only [batchGo]
          rw [if_neg hu, ham]
        obtain ⟨ihl, ⟨rows, hrows, hlen⟩, iherr⟩ := ih s omIds.tail
        rw [hgo]
        refine ⟨?_, ⟨rows, hrows, hlen⟩, ?_⟩
        · simp only [List.length_cons]
          omega
        · intro e he
          simp only [List.mem_cons] at he
          rcases he with rfl | he
          · exact ⟨member, List.mem_cons_self _ _, by simp [hu]⟩
          · obtain ⟨m, hm, hq⟩ := iherr e he
            exact ⟨m, List.mem_cons_of_mem _ hm, hq⟩

/-- C8: a successful addBatchMembers call partitions its non-empty entry list
into successes and errors processed sequentially and independently: the two
lists together account for every entry, each error entry carries the original
userId (or "unknown" for an entry without one) and a failure message, and the
committed membership table is the initial one extended by exactly one row per
successful entry — failed entries do not roll back the others. -/
theorem C8_add_batch_members (s : DB) (pid : String) (members : List BatchMember)
    (omIds : List String) (now : Nat) (res : BatchResult) (s₂ : DB)
    (h : ProjectMembershipsService.addBatchMembers s pid members omIds now = .ok (res, s₂)) :
    members ≠ [] ∧
    res.success.length + res.errors.length = members.length ∧
    (∃ newRows, s₂.projectMemberships = s.projectMemberships ++ newRows ∧
      newRows.length = res.success.length) ∧
    (∀ e ∈ res.errors, ∃ m ∈ members,
      e.userId = (if m.userId.isEmpty then "unknown" else m.userId)) := by
  unfold ProjectMembershipsService.addBatchMembers at h
  split_ifs at h with h1 h2
  simp only [Except.ok.injEq] at h
  obtain ⟨hl, hmem, herr⟩ := batchGo_spec pid now members s omIds
  rw [h] at hl hmem herr
  refine ⟨by simpa using h1, hl, hmem, herr⟩

def c8Members : List BatchMember :=
  [{ userId := "u1", role := some "VIEWER" }, { userId := "ghost", role := none }]

def c8Res : BatchResult :=
  { success := [{ projectId := "p1", userId := "u1", role := "VIEWER",
                  createdAt := 0, updatedAt := 0, name := "User One",
                  email := "u1@example.com", image := none }],
    errors := [{ userId := "ghost", error := "Usuario no encontrado" }] }

def c8S2 : DB :=
  { c2State with
    orgMemberships := [{ id := "om1", orgId := "o1", userId := "u1", role := "VIEWER",
                         createdAt := 0, updatedAt := 0 }],
    projectMemberships := [{ projectId := "p1", userId := "u1", orgMembershipId := "om1",
                             role := "VIEWER", createdAt := 0, updatedAt := 0 }] }

/-- Witness for C8: a two-entry batch with one valid and one missing user
returns one success and one error (carrying the missing userId and message),
and the valid membership is persisted despite the other entry failing. -/
theorem C8_add_batch_members_witness :
    ProjectMembershipsService.addBatchMembers c2State "p1" c8Members ["om1", "om2"] 0 =
      .ok (c8Res, c8S2) ∧
    c8Members ≠ [] ∧
    c8Res.success.length + c8Res.errors.length = c8Members.length ∧
    (∃ newRows, c8S2.projectMemberships = c2State.projectMemberships ++ newRows ∧
      newRows.length = c8Res.success.length) := by
  have hok : ProjectMembershipsService.addBatchMembers c2State "p1" c8Members
      ["om1", "om2"] 0 = .ok (c8Res, c8S2) := by decide
  have h := C8_add_batch_members c2State "p1" c8Members ["om1", "om2"] 0 c8Res c8S2 hok
  exact ⟨hok, h.1, h.2.1, h.2.2.1⟩

/-! ## ApiKeysService (src/src/services/api-keys.service.js, expiration-aware
version — the one the repository wires up) -/

/-- Row shape of the api_keys listing SELECT (no hashed_secret_key and no
secret: only id, created_at, public_key, display_secret_key, last_used_at,
note, expires_at). -/
structure ApiKeyListItem where
  id : String
  createdAt : Nat
  publicKey : String
  displaySecretKey : String
  lastUsedAt : Option Nat
  note : Option String
  expiresAt : Option Nat
  deriving DecidableEq

/-- Row shape of the getById SELECT: the listing columns joined with the
owning project's id and name. -/
structure ApiKeyDetail where
  id : String
  createdAt : Nat
  publicKey : String
  displaySecretKey : String
  lastUsedAt : Option Nat
  note : Option String
  expiresAt : Option Nat
  projectId : String
  projectName : String
  deriving DecidableEq

/-- Response of create: the RETURNING columns plus the full secret, shown
exactly once. -/
structure ApiKeyCreateResult where
  id : String
  createdAt : Nat
  publicKey : String
  displaySecretKey : String
  note : Option String
  expiresAt : Option Nat
  secretKey : String
  deriving DecidableEq

/-- Response of regenerate: the RETURNING columns plus the new full secret. -/
structure ApiKeyRegenResult where
  id : String
  createdAt : Nat
  publicKey : String
  displaySecretKey : String
  note : Option String
  lastUsedAt : Option Nat
  expiresAt : Option Nat
  secretKey : String
  deriving DecidableEq

/-- Response of updateExpiration / updateNote (RETURNING columns only). -/
structure ApiKeyInfo where
  id : String
  createdAt : Nat
  publicKey : String
  displaySecretKey : String
  note : Option String
  lastUsedAt : Option Nat
  expiresAt : Option Nat
  deriving DecidableEq

/-- Project fields returned by verify: id, org_id and name, the soft-delete
marker having been destructured away. -/
structure ProjectInfo where
  id : String
  orgId : String
  name : String
  deriving DecidableEq

/-- Embeds the shared expiration validation block of create / regenerate /
updateExpiration: a provided date must lie strictly in the future, otherwise a
business-rule error is raised; absent (null) passes through.  The input is the
parsed timestamp — a string JavaScript cannot parse is rejected by the same
block with its own message and is not modelled separately. -/
def validateExpiresAt (expiresAt : Option Nat) (now : Nat) :
    Except SvcError (Option Nat) :=
  match expiresAt with
  | none => .ok none
  | some t =>
    if t ≤ now then .error (.businessLogic "La fecha de expiración debe ser futura")
    else .ok (some t)

namespace ApiKeysService

/-- Embeds ApiKeysService.getByProject (the ORDER BY created_at DESC only
permutes the returned rows and is dropped; every claim concerns the row set
and fields). -/
def getByProject (s : DB) (projectId : String) : List ApiKeyListItem :=
  (s.apiKeys.filter (fun k => k.projectId == projectId)).map (fun k =>
    { id := k.id, createdAt := k.createdAt, publicKey := k.publicKey,
      displaySecretKey := k.displaySecretKey, lastUsedAt := k.lastUsedAt,
      note := k.note, expiresAt := k.expiresAt })

/-- Embeds ApiKeysService.getById: joins the owning non-deleted project and
raises NotFound otherwise. -/
def getById (s : DB) (id : String) : Except SvcError ApiKeyDetail :=
  match (s.apiKeys.filter (fun k => k.id == id)).head? with
  | none => .error (.notFound "API key")
  | some k =>
    match (s.projects.filter (fun p => p.id == k.projectId && p.deletedAt == none)).head? with
    | none => .error (.notFound "API key")
    | some p =>
      .ok { id := k.id, createdAt := k.createdAt, publicKey := k.publicKey,
            displaySecretKey := k.displaySecretKey, lastUsedAt := k.lastUsedAt,
            note := k.note, expiresAt := k.expiresAt,
            projectId := p.id, projectName := p.name }

/-- Embeds ApiKeysService.create.  `publicKey` and `secretKey` are the freshly
generated pair (`generateApiKey`), `keyId` the generated row id. -/
def create (s : DB) (projectId : String) (note : Option String)
    (expiresAt : Option Nat) (keyId publicKey secretKey : String) (now : Nat) :
    Except SvcError (ApiKeyCreateResult × DB) :=
  match validateExpiresAt expiresAt now with
  | .error e => .error e
  | .ok parsedExpiresAt =>
    if (s.projects.filter (fun p => p.id == projectId && p.deletedAt == none)).isEmpty then
      .error (.notFound "Proyecto")
    else
      .ok ({ id := keyId, createdAt := now, publicKey := publicKey,
             displaySecretKey := displayOf secretKey, note := note,
             expiresAt := parsedExpiresAt, secretKey := secretKey },
        { s with apiKeys := s.apiKeys ++
          [{ id := keyId, projectId := projectId, publicKey := publicKey,
             hashedSecretKey := hashSecretKey secretKey,
             displaySecretKey := displayOf secretKey, note := note,
             expiresAt := parsedExpiresAt, lastUsedAt := none,
             createdAt := now, updatedAt := now }] })

/-- Embeds ApiKeysService.regenerate: fresh key material overwrites the stored
public key, hash and display fragment in place.  When the expiresAt argument
is null — JavaScript cannot tell an omitted argument from an explicit null,
both reach this code as null — the existing expiration is kept;  a provided
timestamp is validated (strictly future) and replaces it. -/
def regenerate (s : DB) (id : String) (expiresAt : Option Nat)
    (publicKey secretKey : String) (now : Nat) :
    Except SvcError (ApiKeyRegenResult × DB) :=
  match validateExpiresAt expiresAt now with
  | .error e => .error e
  | .ok parsed =>
    match (s.apiKeys.filter (fun k => k.id == id)).head? with
    | none => .error (.notFound "API key")
    | some existingKey =>
      .ok ({ id := existingKey.id, createdAt := existingKey.createdAt,
             publicKey := publicKey, displaySecretKey := displayOf secretKey,
             note := existingKey.note, lastUsedAt := existingKey.lastUsedAt,
             expiresAt := (match expiresAt, existingKey.expiresAt with
               | none, some t => some t
               | _, _ => parsed),
             secretKey := secretKey },
        { s with apiKeys := s.apiKeys.map (fun k =>
          if k.id == id then
            { k with publicKey := publicKey,
                     hashedSecretKey := hashSecretKey secretKey,
                     displaySecretKey := displayOf secretKey,
                     updatedAt := now,
                     expiresAt := (match expiresAt, existingKey.expiresAt with
                       | none, some t => some t
                       | _, _ => parsed) }
          else k) })

/-- Embeds ApiKeysService.updateExpiration: validates (strictly future or
null) and updates only the expiration column; here a null clears it. -/
def updateExpiration (s : DB) (id : String) (expiresAt : Option Nat) (now : Nat) :
    Except SvcError (ApiKeyInfo × DB) :=
  match validateExpiresAt expiresAt now with
  | .error e => .error e
  | .ok parsed =>
    match (s.apiKeys.filter (fun k => k.id == id)).head? with
    | none => .error (.notFound "API key")
    | some k =>
      .ok ({ id := k.id, createdAt := k.createdAt, publicKey := k.publicKey,
             displaySecretKey := k.displaySecretKey, note := k.note,
             lastUsedAt := k.lastUsedAt, expiresAt := parsed },
        { s with apiKeys := s.apiKeys.map (fun r =>
          if r.id == id then { r with expiresAt := parsed, updatedAt := now } else r) })

/-- Embeds ApiKeysService.verify: looks the row up by public key (no-match
returns null, not an error); an expiration in the past is treated exactly as
no-match; the salted hash of the supplied secret is compared with the stored
hash; the owning project must exist and not be soft-deleted; on success
last_used_at is set to now and the project is returned without its
deleted_at marker. -/
def verify (s : DB) (publicKey secretKey : String) (now : Nat) :
    Option ProjectInfo × DB :=
  if publicKey.isEmpty || secretKey.isEmpty then (none, s)
  else
    match (s.apiKeys.filter (fun k => k.publicKey == publicKey)).head? with
    | none => (none, s)
    | some apiKey =>
      if (match apiKey.expiresAt with | some t => decide (t < now) | none => false) then
        (none, s)
      else if hashSecretKey secretKey != apiKey.hashedSecretKey then (none, s)
      else
        match (s.projects.filter (fun p => p.id == apiKey.projectId)).head? with
        | none => (none, s)
        | some project =>
          if project.deletedAt != none then (none, s)
          else
            (some { id := project.id, orgId := project.orgId, name := project.name },
             { s with apiKeys := s.apiKeys.map (fun k =>
               if k.publicKey == publicKey then { k with lastUsedAt := some now } else k) })

end ApiKeysService

/-! ## ProjectsService (src/src/services/projects.service.js), creation path -/

/-- Response of ProjectsService.create: the project row together with the
one-time api key pair. -/
structure ProjectCreateResult where
  project : ProjectRow
  publicKey : String
  secretKey : String
  deriving DecidableEq

namespace ProjectsService

/-- Embeds ProjectsService.create: validates name and organization, inserts
the project row and, in the same transaction, one api_keys row holding the
fresh public key, the salted hash of the fresh secret and the display
fragment (no note, no expiration); the full secret is returned only in the
creation response. -/
def create (s : DB) (name orgId : String)
    (projectId keyId publicKey secretKey : String) (now : Nat) :
    Except SvcError (ProjectCreateResult × DB) :=
  if (jsTrim name).isEmpty then
    .error (.businessLogic "El nombre es requerido")
  else if orgId.isEmpty then
    .error (.businessLogic "El ID de organización es requerido")
  else if (s.organizations.filter (fun o => o.id == orgId)).isEmpty then
    .error (.notFound "Organización")
  else
    .ok ({ project := { id := projectId, name := jsTrim name, orgId := orgId,
                        deletedAt := none, createdAt := now, updatedAt := now },
           publicKey := publicKey, secretKey := secretKey },
      { s with
        projects := s.projects ++
          [{ id := projectId, name := jsTrim name, orgId := orgId,
             deletedAt := none, createdAt := now, updatedAt := now }],
        apiKeys := s.apiKeys ++
          [{ id := keyId, projectId := projectId, publicKey := publicKey,
             hashedSecretKey := hashSecretKey secretKey,
             displaySecretKey := displayOf secretKey, note := none,
             expiresAt := none, lastUsedAt := none,
             createdAt := now, updatedAt := now }] })

end ProjectsService

theorem isEmpty_false_of_ne {s : String} (h : s ≠ "") : s.isEmpty = false := by
  cases he : s.isEmpty with
  | false => rfl
  | true => exact absurd ((String.isEmpty_iff s).mp he) h

theorem validate_ok_inv {e : Option Nat} {now : Nat} {p : Option Nat}
    (h : validateExpiresAt e now = .ok p) :
    p = e ∧ (e = none ∨ ∃ t, e = some t ∧ now < t) := by
  cases e with
  | none =>
    simp only [validateExpiresAt, Except.ok.injEq] at h
    exact ⟨h.symm, Or.inl rfl⟩
  | some t =>
    simp only [validateExpiresAt] at h
    split_ifs at h with ht
    simp only [Except.ok.injEq] at h
    exact ⟨h.symm, Or.inr ⟨t, rfl, by omega⟩⟩

theorem api_create_ok_inv {s : DB} {projectId : String} {note : Option String}
    {expiresAt : Option Nat} {keyId publicKey secretKey : String} {now : Nat}
    {res : ApiKeyCreateResult} {s₁ : DB}
    (h : ApiKeysService.create s projectId note expiresAt keyId publicKey secretKey now =
      .ok (res, s₁)) :
    (expiresAt = none ∨ ∃ t, expiresAt = some t ∧ now < t) ∧
    res.secretKey = secretKey ∧
    s₁ = { s with apiKeys := s.apiKeys ++
      [{ id := keyId, projectId := projectId, publicKey := publicKey,
         hashedSecretKey := hashSecretKey secretKey,
         displaySecretKey := displayOf secretKey, note := note,
         expiresAt := expiresAt, lastUsedAt := none,
         createdAt := now, updatedAt := now }] } := by
  unfold ApiKeysService.create at h
  split at h
  · exact absurd h (by simp)
  · next parsed hval =>
    obtain ⟨hp, hcases⟩ := validate_ok_inv hval
    subst hp
    split_ifs at h with h1
    simp only [Except.ok.injEq, Prod.mk.injEq] at h
    refine ⟨hcases, ?_, h.2.symm⟩
    rw [← h.1]

/-- Success path of verify, spelled out: a first-match by public key that is
not expired, whose stored hash matches, and whose project exists non-deleted,
returns the project info and stamps last_used_at on every row with that
public key. -/
theorem verify_spec {s : DB} {pk sk : String} {now : Nat} {k : ApiKeyRow}
    (hpk : pk ≠ "") (hsk : sk ≠ "")
    (hk : (s.apiKeys.filter (fun x => x.publicKey == pk)).head? = some k)
    (hexp : ∀ t, k.expiresAt = some t → ¬(t < now))
    (hhash : hashSecretKey sk = k.hashedSecretKey)
    {proj : ProjectRow}
    (hproj : (s.projects.filter (fun p => p.id == k.projectId)).head? = some proj)
    (hdel : proj.deletedAt = none) :
    ApiKeysService.verify s pk sk now =
      (some { id := proj.id, orgId := proj.orgId, name := proj.name },
       { s with apiKeys := s.apiKeys.map (fun x =>
         if x.publicKey == pk then { x with lastUsedAt := some now } else x) }) := by
  have hc1 : (pk.isEmpty || sk.isEmpty) = false := by
    rw [isEmpty_false_of_ne hpk, isEmpty_false_of_ne hsk]
    rfl
  have hc2 : (match k.expiresAt with
      | some t => decide (t < now) | none => false) = false := by
    cases he : k.expiresAt with
    | none => rfl
    | some t =>
      simp only [decide_eq_false_iff_not]
      exact hexp t he
  have hc3 : (hashSecretKey sk != k.hashedSecretKey) = false := by
    simp [hhash]
  have hc4 : (proj.deletedAt != none) = false := by
    simp [hdel]
  unfold ApiKeysService.verify
  simp only [hc1, Bool.false_eq_true, if_false, hk, hc2, hc3, hproj, hc4]

/-- No-match paths of verify that are observationally identical: a key whose
stored expiration has passed behaves exactly like a public key with no row at
all — the result is null and the state is untouched in both cases. -/
theorem verify_no_match {s : DB} {pk sk : String} {now : Nat} :
    ((∃ k t, (s.apiKeys.filter (fun x => x.publicKey == pk)).head? = some k ∧
        k.expiresAt = some t ∧ t < now) →
      ApiKeysService.verify s pk sk now = (none, s)) ∧
    ((s.apiKeys.filter (fun x => x.publicKey == pk)).head? = none →
      ApiKeysService.verify s pk sk now = (none, s)) := by
  constructor
  · rintro ⟨k, t, hk, hexp, hlt⟩
    unfold ApiKeysService.verify
    cases hc1 : (pk.isEmpty || sk.isEmpty) with
    | true => rfl
    | false =>
      have hc2 : (match k.expiresAt with
          | some t => decide (t < now) | none => false) = true := by
        rw [hexp]
        simpa using hlt
      simp only [Bool.false_eq_true, if_false, hk, hc2, if_true]
  · intro hk
    unfold ApiKeysService.verify
    cases hc1 : (pk.isEmpty || sk.isEmpty) with
    | true => rfl
    | false =>
      simp only [Bool.false_eq_true, if_false, hk]

/-- Wrong-secret path of verify: when a row is found for the public key but
the salted hash of the supplied secret differs from the stored hash, the
result is no-match with no state change (this also covers an empty supplied
secret, rejected by the initial falsy guard). -/
theorem verify_wrong_secret {s : DB} {pk w : String} {now : Nat} {k : ApiKeyRow}
    (hk : (s.apiKeys.filter (fun x => x.publicKey == pk)).head? = some k)
    (hhash : hashSecretKey w ≠ k.hashedSecretKey) :
    ApiKeysService.verify s pk w now = (none, s) := by
  unfold ApiKeysService.verify
  cases hc1 : (pk.isEmpty || w.isEmpty) with
  | true => rfl
  | false =>
    simp only [Bool.false_eq_true, if_false, hk]
    by_cases hc2 : (match k.expiresAt with
        | some t => decide (t < now) | none => false) = true
    · rw [if_pos hc2]
    · rw [if_neg hc2, if_pos (by simpa using hhash)]

/-- Past expiration dates are rejected by updateExpiration before any write. -/
theorem updateExpiration_past {s : DB} {id : String} {t now2 : Nat} (h : t ≤ now2) :
    ApiKeysService.updateExpiration s id (some t) now2 =
      .error (.businessLogic "La fecha de expiración debe ser futura") := by
  have hv : validateExpiresAt (some t) now2 =
      .error (.businessLogic "La fecha de expiración debe ser futura") := by
    simp [validateExpiresAt, h]
  unfold ApiKeysService.updateExpiration
  rw [hv]

/-- C3 (amended): for a freshly created key pair (pub, sec), verify(pub, sec)
returns the owning project's id, organization reference and name with the
soft-delete marker stripped and stamps last_used_at; verify(pub, w) for any w
whose salted hash differs from the stored hash returns no-match with no state
change; updateExpiration(id, pastDate) for a past (or present) date is
rejected with a business-rule error — so the claimed "expire then verify"
no-match can never be reached through updateExpiration — and a key whose
stored expiration has passed at verify time returns no-match observationally
identical to a wholly nonexistent key (null result, untouched state, no
distinguishable expired value). -/
theorem C3_verify_round_trip_amended (s : DB) (pid : String) (note : Option String)
    (expIn : Option Nat) (keyId pk sk : String) (now : Nat)
    (res : ApiKeyCreateResult) (s₁ : DB) (proj : ProjectRow)
    (hok : ApiKeysService.create s pid note expIn keyId pk sk now = .ok (res, s₁))
    (hpk : pk ≠ "") (hsk : sk ≠ "")
    (hfresh : (s.apiKeys.filter (fun x => x.publicKey == pk)).isEmpty = true)
    (hid : ∀ k ∈ s.apiKeys, k.id ≠ keyId)
    (hproj : (s.projects.filter (fun p => p.id == pid)).head? = some proj)
    (hdel : proj.deletedAt = none) :
    res.secretKey = sk ∧
    (ApiKeysService.verify s₁ pk sk now).1 =
      some { id := proj.id, orgId := proj.orgId, name := proj.name } ∧
    (∀ k ∈ (ApiKeysService.verify s₁ pk sk now).2.apiKeys,
      k.id = keyId → k.lastUsedAt = some now) ∧
    (∀ w, hashSecretKey w ≠ hashSecretKey sk →
      ApiKeysService.verify s₁ pk w now = (none, s₁)) ∧
    (∀ t now2, t ≤ now2 →
      ApiKeysService.updateExpiration s₁ keyId (some t) now2 =
        .error (.businessLogic "La fecha de expiración debe ser futura")) ∧
    (∀ (s2 : DB) (pk2 sk2 : String) (now2 : Nat),
      ((∃ k t2, (s2.apiKeys.filter (fun x => x.publicKey == pk2)).head? = some k ∧
          k.expiresAt = some t2 ∧ t2 < now2) →
        ApiKeysService.verify s2 pk2 sk2 now2 = (none, s2)) ∧
      ((s2.apiKeys.filter (fun x => x.publicKey == pk2)).head? = none →
        ApiKeysService.verify s2 pk2 sk2 now2 = (none, s2))) := by
  obtain ⟨hvalid, hsec, hs₁⟩ := api_create_ok_inv hok
  subst hs₁
  have hold : s.apiKeys.filter (fun x => x.publicKey == pk) = [] :=
    List.isEmpty_iff.mp hfresh
  have hkk : (((s.apiKeys ++
      [{ id := keyId, projectId := pid, publicKey := pk,
         hashedSecretKey := hashSecretKey sk,
         displaySecretKey := displayOf sk, note := note,
         expiresAt := expIn, lastUsedAt := none,
         createdAt := now, updatedAt := now }]) : List ApiKeyRow).filter
        (fun x => x.publicKey == pk)).head? =
      some { id := keyId, projectId := pid, publicKey := pk,
             hashedSecretKey := hashSecretKey sk,
             displaySecretKey := displayOf sk, note := note,
             expiresAt := expIn, lastUsedAt := none,
             createdAt := now, updatedAt := now } := by
    rw [List.filter_append, hold]
    simp
  have hexp : ∀ t, (expIn = some t) → ¬(t < now) := by
    intro t ht
    rcases hvalid with hv | ⟨t2, hv, hlt⟩
    · rw [hv] at ht; cases ht
    · rw [hv] at ht
      cases ht
      omega
  have hverify := @verify_spec
    { s with apiKeys := s.apiKeys ++
      [{ id := keyId, projectId := pid, publicKey := pk,
         hashedSecretKey := hashSecretKey sk,
         displaySecretKey := displayOf sk, note := note,
         expiresAt := expIn, lastUsedAt := none,
         createdAt := now, updatedAt := now }] }
    pk sk now
    { id := keyId, projectId := pid, publicKey := pk,
      hashedSecretKey := hashSecretKey sk,
      displaySecretKey := displayOf sk, note := note,
      expiresAt := expIn, lastUsedAt := none,
      createdAt := now, updatedAt := now }
    hpk hsk hkk hexp rfl proj hproj hdel
  refine ⟨hsec, ?_, ?_, ?_, ?_, ?_⟩
  · rw [hverify]
  · rw [hverify]
    intro k hkmem hkid
    simp only [List.map_append, List.mem_append, List.mem_map] at hkmem
    rcases hkmem with ⟨k₀, hk₀, rfl⟩ | ⟨k₀, hk₀, rfl⟩
    · have hidp : ((if k₀.publicKey == pk then { k₀ with lastUsedAt := some now }
          else k₀) : ApiKeyRow).id = k₀.id := by
        split <;> rfl
      rw [hidp] at hkid
      exact absurd hkid (hid k₀ hk₀)
    · have hk₀2 : k₀ =
          ({ id := keyId, projectId := pid, publicKey := pk,
             hashedSecretKey := hashSecretKey sk,
             displaySecretKey := displayOf sk, note := note,
             expiresAt := expIn, lastUsedAt := none,
             createdAt := now, updatedAt := now } : ApiKeyRow) := by simpa using hk₀
      subst hk₀2
      simp
  · intro w hw
    exact verify_wrong_secret hkk hw
  · intro t now2 ht
    exact updateExpiration_past ht
  · intro s2 pk2 sk2 now2
    exact verify_no_match

/-- State holding one api key (public pk_a, secret sk_a, no expiration) for
project p1. -/
def c3State : DB :=
  { c2State with apiKeys :=
      [{ id := "key1", projectId := "p1", publicKey := "pk_a",
         hashedSecretKey := hashSecretKey "sk_a", displaySecretKey := "sk_a...",
         note := none, expiresAt := none, lastUsedAt := none,
         createdAt := 0, updatedAt := 0 }] }

/-- C3 counterexample: the claim as stated is false.  updateExpiration with a
past date does not expire the key — it is rejected with a business-rule error
(only strictly future dates or null are accepted), and verify(pub, sec)
afterwards still returns the project match rather than the claimed
no-match. -/
theorem C3_counterexample :
    ApiKeysService.updateExpiration c3State "key1" (some 5) 10 =
      .error (.businessLogic "La fecha de expiración debe ser futura") ∧
    (ApiKeysService.verify c3State "pk_a" "sk_a" 10).1 =
      some { id := "p1", orgId := "o1", name := "Proj" } := by
  decide

def c3Res : ApiKeyCreateResult :=
  { id := "key1", createdAt := 10, publicKey := "pk_a",
    displaySecretKey := "sk_a...", note := none, expiresAt := none,
    secretKey := "sk_a" }

def c3S1 : DB :=
  { c2State with apiKeys :=
      [{ id := "key1", projectId := "p1", publicKey := "pk_a",
         hashedSecretKey := hashSecretKey "sk_a", displaySecretKey := "sk_a...",
         note := none, expiresAt := none, lastUsedAt := none,
         createdAt := 10, updatedAt := 10 }] }

/-- Witness for the amended C3 at a concrete freshly-created key. -/
theorem C3_verify_round_trip_amended_witness :
    c3Res.secretKey = "sk_a" ∧
    (ApiKeysService.verify c3S1 "pk_a" "sk_a" 10).1 =
      some { id := "p1", orgId := "o1", name := "Proj" } ∧
    ApiKeysService.verify c3S1 "pk_a" "sk_wrong" 10 = (none, c3S1) ∧
    ApiKeysService.updateExpiration c3S1 "key1" (some 5) 11 =
      .error (.businessLogic "La fecha de expiración debe ser futura") := by
  have hok : ApiKeysService.create c2State "p1" none none "key1" "pk_a" "sk_a" 10 =
      .ok (c3Res, c3S1) := by decide
  have h := C3_verify_round_trip_amended c2State "p1" none none "key1" "pk_a" "sk_a" 10
    c3Res c3S1
    { id := "p1", name := "Proj", orgId := "o1", deletedAt := none,
      createdAt := 0, updatedAt := 0 }
    hok (by decide) (by decide) (by decide) (by decide) (by decide) (by decide)
  exact ⟨h.1, h.2.1, h.2.2.2.1 "sk_wrong" (by decide), h.2.2.2.2.1 5 11 (by decide)⟩

/-- C4 (amended): regenerate overwrites the stored public key, secret hash and
display fragment with the fresh material while preserving the row id, note and
creation timestamp; a provided future expiresAt is validated and replaces the
stored expiration, and a past one is rejected; but when expiresAt is null —
and an omitted argument and an explicit null are indistinguishable at this
interface, both arriving as null — the previously stored expiration is
preserved unchanged: an explicit null does not clear it. -/
theorem C4_regenerate_amended (s : DB) (id : String) (pk2 sk2 : String) (now : Nat)
    (k : ApiKeyRow)
    (hk : (s.apiKeys.filter (fun x => x.id == id)).head? = some k) :
    (∀ t, t ≤ now → ApiKeysService.regenerate s id (some t) pk2 sk2 now =
      .error (.businessLogic "La fecha de expiración debe ser futura")) ∧
    (∀ res s₂, ApiKeysService.regenerate s id none pk2 sk2 now = .ok (res, s₂) →
      res.id = k.id ∧ res.note = k.note ∧ res.createdAt = k.createdAt ∧
      res.publicKey = pk2 ∧ res.secretKey = sk2 ∧
      res.displaySecretKey = displayOf sk2 ∧
      res.expiresAt = k.expiresAt ∧
      s₂.apiKeys = s.apiKeys.map (fun r => if r.id == id then
        { r with publicKey := pk2, hashedSecretKey := hashSecretKey sk2,
                 displaySecretKey := displayOf sk2, updatedAt := now,
                 expiresAt := k.expiresAt } else r)) ∧
    (∀ t res s₂, now < t →
      ApiKeysService.regenerate s id (some t) pk2 sk2 now = .ok (res, s₂) →
      res.id = k.id ∧ res.note = k.note ∧ res.publicKey = pk2 ∧
      res.expiresAt = some t ∧
      s₂.apiKeys = s.apiKeys.map (fun r => if r.id == id then
        { r with publicKey := pk2, hashedSecretKey := hashSecretKey sk2,
                 displaySecretKey := displayOf sk2, updatedAt := now,
                 expiresAt := some t } else r)) := by
  refine ⟨?_, ?_, ?_⟩
  · intro t ht
    have hv : validateExpiresAt (some t) now =
        .error (.businessLogic "La fecha de expiración debe ser futura") := by
      simp [validateExpiresAt, ht]
    unfold ApiKeysService.regenerate
    rw [hv]
  · intro res s₂ h
    unfold ApiKeysService.regenerate at h
    have hm : (match (none : Option Nat), k.expiresAt with
        | none, some t => some t | _, _ => (none : Option Nat)) = k.expiresAt := by
      cases k.expiresAt <;> rfl
    simp only [validateExpiresAt, hk, hm, Except.ok.injEq, Prod.mk.injEq] at h
    obtain ⟨hres, hs₂⟩ := h
    subst hres
    refine ⟨rfl, rfl, rfl, rfl, rfl, rfl, rfl, ?_⟩
    rw [← hs₂]
  · intro t res s₂ ht h
    unfold ApiKeysService.regenerate at h
    have hv : validateExpiresAt (some t) now = .ok (some t) := by
      simp only [validateExpiresAt]
      rw [if_neg (by omega)]
    have hm : (match (some t : Option Nat), k.expiresAt with
        | none, some t2 => some t2 | _, _ => (some t : Option Nat)) = some t := by
      cases k.expiresAt <;> rfl
    rw [hv] at h
    simp only [hk, hm, Except.ok.injEq, Prod.mk.injEq] at h
    obtain ⟨hres, hs₂⟩ := h
    subst hres
    refine ⟨rfl, rfl, rfl, rfl, ?_⟩
    rw [← hs₂]

/-- State holding one api key for p1 whose stored expiration is 100. -/
def c4State : DB :=
  { c2State with apiKeys :=
      [{ id := "key1", projectId := "p1", publicKey := "pk_a",
         hashedSecretKey := hashSecretKey "sk_a", displaySecretKey := "sk_a...",
         note := some "prod key", expiresAt := some 100, lastUsedAt := none,
         createdAt := 0, updatedAt := 0 }] }

def c4Res : ApiKeyRegenResult :=
  { id := "key1", createdAt := 0, publicKey := "pk_b",
    displaySecretKey := "sk_b...", note := some "prod key", lastUsedAt := none,
    expiresAt := some 100, secretKey := "sk_b" }

def c4S2 : DB :=
  { c2State with apiKeys :=
      [{ id := "key1", projectId := "p1", publicKey := "pk_b",
         hashedSecretKey := hashSecretKey "sk_b", displaySecretKey := "sk_b...",
         note := some "prod key", expiresAt := some 100, lastUsedAt := none,
         createdAt := 0, updatedAt := 50 }] }

/-- C4 counterexample: the claim as stated is false.  Passing an explicit null
expiresAt to regenerate does not clear the stored expiration: the key stored
with expiration 100 is regenerated at time 50 with expiresAt null, and both
the response and the stored row still carry expiration 100 (an explicit null
is indistinguishable from omission and preserves the stored value instead of
replacing it). -/
theorem C4_counterexample :
    ApiKeysService.regenerate c4State "key1" none "pk_b" "sk_b" 50 =
      .ok (c4Res, c4S2) ∧
    c4Res.expiresAt = some 100 ∧
    c4Res.expiresAt ≠ none := by
  decide

/-- Witness for the amended C4 at the concrete stored key: a past date is
rejected, and a null expiresAt preserves expiration 100 while rotating the
key material and preserving id and note. -/
theorem C4_regenerate_amended_witness :
    ApiKeysService.regenerate c4State "key1" (some 50) "pk_b" "sk_b" 50 =
      .error (.businessLogic "La fecha de expiración debe ser futura") ∧
    c4Res.id = "key1" ∧
    c4Res.note = some "prod key" ∧
    c4Res.publicKey = "pk_b" ∧
    c4Res.secretKey = "sk_b" ∧
    c4Res.expiresAt = some 100 := by
  have hk : (c4State.apiKeys.filter (fun x => x.id == "key1")).head? =
      some { id := "key1", projectId := "p1", publicKey := "pk_a",
             hashedSecretKey := hashSecretKey "sk_a", displaySecretKey := "sk_a...",
             note := some "prod key", expiresAt := some 100, lastUsedAt := none,
             createdAt := 0, updatedAt := 0 } := by decide
  have h := C4_regenerate_amended c4State "key1" "pk_b" "sk_b" 50 _ hk
  have hok : ApiKeysService.regenerate c4State "key1" none "pk_b" "sk_b" 50 =
      .ok (c4Res, c4S2) := by decide
  have hfacts := h.2.1 c4Res c4S2 hok
  exact ⟨h.1 50 (by decide), hfacts.1, hfacts.2.1, hfacts.2.2.2.1,
    hfacts.2.2.2.2.1, hfacts.2.2.2.2.2.2.1⟩

/-- The display fragment (first 8 characters plus ellipsis, 11 characters in
all) can never equal a full generated secret (35 characters: prefix sk_ plus
32 hex digits). -/
theorem displayOf_ne {sk : String} (h : sk.length = 35) : displayOf sk ≠ sk := by
  intro heq
  have hl : (sk.take 8 ++ "...").length = sk.length := congrArg String.length heq
  rw [String.length_append, string_take_length, h] at hl
  have h3 : ("..." : String).length = 3 := rfl
  omega

/-- Blanks out the stored secret hashes, leaving every other column intact. -/
def eraseKeyHash (k : ApiKeyRow) : ApiKeyRow := { k with hashedSecretKey := "" }

def eraseHashes (s : DB) : DB := { s with apiKeys := s.apiKeys.map eraseKeyHash }

theorem getById_erase (s : DB) (id : String) :
    ApiKeysService.getById (eraseHashes s) id = ApiKeysService.getById s id := by
  unfold ApiKeysService.getById eraseHashes
  have hf : (s.apiKeys.map eraseKeyHash).filter (fun k => k.id == id) =
      (s.apiKeys.filter (fun k => k.id == id)).map eraseKeyHash := by
    rw [List.filter_map]
    rfl
  rw [hf, List.head?_map]
  cases hh : (s.apiKeys.filter (fun k => k.id == id)).head? with
  | none => rfl
  | some k => rfl

theorem getByProject_erase (s : DB) (pid : String) :
    ApiKeysService.getByProject (eraseHashes s) pid =
      ApiKeysService.getByProject s pid := by
  unfold ApiKeysService.getByProject eraseHashes
  show ((s.apiKeys.map eraseKeyHash).filter (fun k => k.projectId == pid)).map _ = _
  rw [List.filter_map, List.map_map]
  rfl

/-- C9: the full secret is returned exactly once, by create; afterwards the
read paths cannot yield it.  Formally: (i) the creation response carries the
secret; (ii) every field of the later getByProject row for the same key and
(iii) of the later getById record differs from the secret — the display
fragment by length, the public key, identifiers, note and project name
because the secret is fresh 128-bit-entropy material that collides with no
pre-existing string; and (iv) the outputs of getById and getByProject do not
depend on the stored secret hash at all (states agreeing on everything but
the hashes produce identical responses), so neither the secret nor its hash
is derivable from any read. -/
theorem C9_secret_returned_once (s : DB) (pid : String) (note : Option String)
    (expIn : Option Nat) (keyId pk sk : String) (now : Nat)
    (res : ApiKeyCreateResult) (s₁ : DB)
    (hok : ApiKeysService.create s pid note expIn keyId pk sk now = .ok (res, s₁))
    (hsklen : sk.length = 35)
    (hpk : pk ≠ sk) (hkid : keyId ≠ sk) (hpid : pid ≠ sk) (hnote : note ≠ some sk)
    (hnames : ∀ p ∈ s.projects, p.name ≠ sk)
    (hid : ∀ k ∈ s.apiKeys, k.id ≠ keyId) :
    res.secretKey = sk ∧
    (∀ item ∈ ApiKeysService.getByProject s₁ pid, item.id = keyId →
      item.publicKey ≠ sk ∧ item.displaySecretKey ≠ sk ∧ item.id ≠ sk ∧
      item.note ≠ some sk) ∧
    (∀ d, ApiKeysService.getById s₁ keyId = .ok d →
      d.publicKey ≠ sk ∧ d.displaySecretKey ≠ sk ∧ d.id ≠ sk ∧
      d.note ≠ some sk ∧ d.projectId ≠ sk ∧ d.projectName ≠ sk) ∧
    (∀ t₁ t₂ : DB, eraseHashes t₁ = eraseHashes t₂ →
      ApiKeysService.getById t₁ keyId = ApiKeysService.getById t₂ keyId ∧
      ApiKeysService.getByProject t₁ pid = ApiKeysService.getByProject t₂ pid) := by
  obtain ⟨hvalid, hsec, hs₁⟩ := api_create_ok_inv hok
  subst hs₁
  refine ⟨hsec, ?_, ?_, ?_⟩
  · intro item hitem hitemid
    unfold ApiKeysService.getByProject at hitem
    simp only [List.filter_append, List.mem_append, List.mem_map,
      List.mem_filter] at hitem
    obtain ⟨k, hk, rfl⟩ := hitem
    rcases hk with ⟨hk2, hpred⟩ | ⟨hk2, hpred⟩
    · exact absurd hitemid (hid k hk2)
    · have hkeq : k =
          ({ id := keyId, projectId := pid, publicKey := pk,
             hashedSecretKey := hashSecretKey sk, displaySecretKey := displayOf sk,
             note := note, expiresAt := expIn, lastUsedAt := none,
             createdAt := now, updatedAt := now } : ApiKeyRow) := by
        simpa using hk2
      subst hkeq
      exact ⟨hpk, displayOf_ne hsklen, hkid, hnote⟩
  · intro d hd
    unfold ApiKeysService.getById at hd
    have hfe : s.apiKeys.filter (fun x => x.id == keyId) = [] := by
      rw [List.filter_eq_nil_iff]
      intro a ha
      simpa using hid a ha
    rw [List.filter_append, hfe] at hd
    simp only [List.nil_append, List.filter_cons, List.filter_nil] at hd
    rw [if_pos (by simp)] at hd
    simp only [List.head?_cons] at hd
    split at hd
    · exact absurd hd (by simp)
    · next p hp =>
      simp only [Except.ok.injEq] at hd
      subst hd
      obtain ⟨hpmem, hppred⟩ := head?_filter_mem hp
      simp only [Bool.and_eq_true, beq_iff_eq] at hppred
      refine ⟨hpk, displayOf_ne hsklen, hkid, hnote, ?_, hnames p hpmem⟩
      show p.id ≠ sk
      rw [hppred.1]
      exact hpid
  · intro t₁ t₂ he
    constructor
    · rw [← getById_erase t₁, ← getById_erase t₂, he]
    · rw [← getByProject_erase t₁, ← getByProject_erase t₂, he]

def c9sk : String := "sk_0123456789abcdef0123456789abcdef"

def c9pk : String := "pk_0123456789abcdef0123456789abcdef"

def c9S1 : DB :=
  { c2State with apiKeys :=
      [{ id := "key1", projectId := "p1", publicKey := c9pk,
         hashedSecretKey := hashSecretKey c9sk, displaySecretKey := "sk_01234...",
         note := none, expiresAt := none, lastUsedAt := none,
         createdAt := 7, updatedAt := 7 }] }

def c9Res : ApiKeyCreateResult :=
  { id := "key1", createdAt := 7, publicKey := c9pk,
    displaySecretKey := "sk_01234...", note := none, expiresAt := none,
    secretKey := c9sk }

def c9Detail : ApiKeyDetail :=
  { id := "key1", createdAt := 7, publicKey := c9pk,
    displaySecretKey := "sk_01234...", lastUsedAt := none, note := none,
    expiresAt := none, projectId := "p1", projectName := "Proj" }

/-- Witness for C9 at a concrete generated-format key pair: create returns
the full secret once; the later getById returns only the truncated display
fragment and public key, none of whose fields equals the secret; and reads
are unaffected by replacing the stored hash. -/
theorem C9_secret_returned_once_witness :
    c9Res.secretKey = c9sk ∧
    ApiKeysService.getById c9S1 "key1" = .ok c9Detail ∧
    c9Detail.displaySecretKey ≠ c9sk ∧
    c9Detail.publicKey ≠ c9sk ∧
    c9Detail.projectName ≠ c9sk ∧
    ApiKeysService.getById
      { c9S1 with
        apiKeys := c9S1.apiKeys.map (fun k => { k with hashedSecretKey := "other" }) }
      "key1" =
      ApiKeysService.getById c9S1 "key1" := by
  have hok : ApiKeysService.create c2State "p1" none none "key1" c9pk c9sk 7 =
      .ok (c9Res, c9S1) := by decide
  have h := C9_secret_returned_once c2State "p1" none none "key1" c9pk c9sk 7
    c9Res c9S1 hok (by decide) (by decide) (by decide) (by decide) (by decide)
    (by decide) (by decide)
  have hd : ApiKeysService.getById c9S1 "key1" = .ok c9Detail := by decide
  have hfacts := h.2.2.1 c9Detail hd
  have hni := (h.2.2.2
    { c9S1 with
      apiKeys := c9S1.apiKeys.map (fun k => { k with hashedSecretKey := "other" }) }
    c9S1 (by decide)).1
  exact ⟨h.1, hd, hfacts.2.1, hfacts.1, hfacts.2.2.2.2.2, hni⟩

/-- The stored hash (fixed-prefix salted digest) is always longer than the
secret itself, so the plaintext secret is never what the row stores. -/
theorem hashSecretKey_ne (sk : String) : hashSecretKey sk ≠ sk := by
  intro h
  have hl : ("sha256:" ++ "salt" ++ sk).length = sk.length := congrArg String.length h
  rw [String.length_append, String.length_append] at hl
  have h1 : ("sha256:" : String).length = 7 := rfl
  have h2 : ("salt" : String).length = 4 := rfl
  omega

/-- Committed state of a ProjectsService.create call. -/
def runProjectsCreate (s : DB) (name orgId projectId keyId pk sk : String)
    (now : Nat) : DB :=
  match ProjectsService.create s name orgId projectId keyId pk sk now with
  | .ok (_, s₂) => s₂
  | .error _ => s

/-- C10: a successful project creation atomically inserts the project row and
exactly one api_keys row holding the fresh public key, the salted hash of the
fresh secret and the display fragment; the full secret appears only in the
creation response (what is stored is the hash and the fragment, neither of
which equals the plaintext); and on any failure neither row exists — the
transaction leaves the state unchanged. -/
theorem C10_project_create_provisions_key (s : DB) (name orgId : String)
    (projectId keyId pk sk : String) (now : Nat) (hsklen : sk.length = 35) :
    (∀ res s₂,
      ProjectsService.create s name orgId projectId keyId pk sk now = .ok (res, s₂) →
      s₂.projects = s.projects ++
        [{ id := projectId, name := jsTrim name, orgId := orgId, deletedAt := none,
           createdAt := now, updatedAt := now }] ∧
      s₂.apiKeys = s.apiKeys ++
        [{ id := keyId, projectId := projectId, publicKey := pk,
           hashedSecretKey := hashSecretKey sk, displaySecretKey := displayOf sk,
           note := none, expiresAt := none, lastUsedAt := none,
           createdAt := now, updatedAt := now }] ∧
      res.secretKey = sk ∧ res.publicKey = pk ∧
      hashSecretKey sk ≠ sk ∧ displayOf sk ≠ sk) ∧
    (∀ e, ProjectsService.create s name orgId projectId keyId pk sk now = .error e →
      runProjectsCreate s name orgId projectId keyId pk sk now = s) := by
  constructor
  · intro res s₂ h
    unfold ProjectsService.create at h
    split_ifs at h with h1 h2 h3
    simp only [Except.ok.injEq, Prod.mk.injEq] at h
    obtain ⟨hres, hs₂⟩ := h
    subst hres
    refine ⟨by rw [← hs₂], by rw [← hs₂], rfl, rfl, hashSecretKey_ne sk,
      displayOf_ne hsklen⟩
  · intro e h
    unfold runProjectsCreate
    rw [h]

def c10Res : ProjectCreateResult :=
  { project := { id := "p2", name := "New Proj", orgId := "o1", deletedAt := none,
                 createdAt := 3, updatedAt := 3 },
    publicKey := c9pk, secretKey := c9sk }

def c10S2 : DB :=
  { c2State with
    projects := c2State.projects ++
      [{ id := "p2", name := "New Proj", orgId := "o1", deletedAt := none,
         createdAt := 3, updatedAt := 3 }],
    apiKeys := [{ id := "key2", projectId := "p2", publicKey := c9pk,
                  hashedSecretKey := hashSecretKey c9sk,
                  displaySecretKey := "sk_01234...", note := none,
                  expiresAt := none, lastUsedAt := none,
                  createdAt := 3, updatedAt := 3 }] }

/-- Witness for C10: the concrete creation commits the project row and one
api key row together, returns the secret, and a failed creation (empty name)
commits nothing. -/
theorem C10_project_create_provisions_key_witness :
    ProjectsService.create c2State "New Proj" "o1" "p2" "key2" c9pk c9sk 3 =
      .ok (c10Res, c10S2) ∧
    c10S2.projects = c2State.projects ++
      [{ id := "p2", name := "New Proj", orgId := "o1", deletedAt := none,
         createdAt := 3, updatedAt := 3 }] ∧
    c10Res.secretKey = c9sk ∧
    hashSecretKey c9sk ≠ c9sk ∧
    runProjectsCreate c2State "" "o1" "p2" "key2" c9pk c9sk 3 = c2State := by
  have hok : ProjectsService.create c2State "New Proj" "o1" "p2" "key2" c9pk c9sk 3 =
      .ok (c10Res, c10S2) := by decide
  have h := C10_project_create_provisions_key c2State "New Proj" "o1" "p2" "key2"
    c9pk c9sk 3 (by decide)
  have hfacts := h.1 c10Res c10S2 hok
  have herr : ProjectsService.create c2State "" "o1" "p2" "key2" c9pk c9sk 3 =
      .error (.businessLogic "El nombre es requerido") := by decide
  have h2 := (C10_project_create_provisions_key c2State "" "o1" "p2" "key2"
    c9pk c9sk 3 (by decide)).2 _ herr
  exact ⟨hok, hfacts.1, hfacts.2.2.1, hfacts.2.2.2.2.1, h2⟩
